import Mathlib

/-!
# Verification of the dynamic BM25 index (DuckLake-backed)

A shallow embedding of the index data model and its maintenance/query
algorithms from `code/index_tools.py`, `code/fts_tools.py`,
`code/helper_functions.py` and `code/update_tools.py`.

The persistent state consists of four logical tables
(`dict(termid,term,df)`, `docs(docid,len)`, `postings(termid,docid,tf)`,
`data(docid,content)`), modelled as lists of rows; BIGINT columns are
modelled as `Int`.  Each SQL statement of the source is translated to an
explicit list transformation; the per-operation transaction scripts
(`BEGIN`/`COMMIT`/`ROLLBACK` sequences issued on a connection) are modelled
separately by an explicit connection state with an in-transaction flag.
-/

namespace DIdx

/-- A row of `my_ducklake.dict` (`termid BIGINT, term TEXT, df BIGINT`). -/
structure DictRow where
  termid : Int
  term : String
  df : Int
deriving DecidableEq, Repr

/-- A row of `my_ducklake.docs` (`docid BIGINT, len BIGINT`). -/
structure DocRow where
  docid : Int
  len : Int
deriving DecidableEq, Repr

/-- A row of `my_ducklake.postings` (`termid BIGINT, docid BIGINT, tf BIGINT`). -/
structure PostRow where
  termid : Int
  docid : Int
  tf : Int
deriving DecidableEq, Repr

/-- A row of `my_ducklake.data` (`docid BIGINT, content TEXT`). -/
structure DataRow where
  docid : Int
  content : String
deriving DecidableEq, Repr

/-- The four index tables of the DuckLake catalog. -/
structure IndexState where
  dict : List DictRow
  docs : List DocRow
  postings : List PostRow
  data : List DataRow
deriving DecidableEq, Repr

/-! ## Tokenizer (`helper_functions.tokenize` and the SQL build path) -/

/-- `A`–`Z` as a code-point test (the regex class `[A-Z]`). -/
def isAsciiUpper (c : Char) : Bool := 65 ≤ c.toNat && c.toNat ≤ 90

/-- `a`–`z` as a code-point test (the regex class `[a-z]`). -/
def isAsciiLower (c : Char) : Bool := 97 ≤ c.toNat && c.toNat ≤ 122

/-- The regex class `[A-Za-z]` used by `_WORD_RE` in `helper_functions.py`. -/
def isAsciiAlpha (c : Char) : Bool := isAsciiUpper c || isAsciiLower c

/-- ASCII lowercasing, as applied by Python's `str.lower` to a match of
`[A-Za-z]+` (such matches contain only ASCII letters). -/
def asciiLowerChar (c : Char) : Char :=
  if isAsciiUpper c then Char.ofNat (c.toNat + 32) else c

/-- Models DuckDB's `lower` (utf8proc simple lowercasing) on the code points
exercised in this development: ASCII `A`–`Z` map to `a`–`z`, the Kelvin sign
U+212A maps to `k`, dotted capital I U+0130 maps to `i`; every other
character is left unchanged.  (The build path in
`build_index_to_parquet_from_ducklake` applies `lower(content)` to the whole
document before extracting `[a-z]+` runs.) -/
def duckLowerChar (c : Char) : Char :=
  if isAsciiUpper c then Char.ofNat (c.toNat + 32)
  else if c.toNat = 8490 then 'k'
  else if c.toNat = 304 then 'i'
  else c

/-- Maximal runs of characters satisfying `p` (the behaviour of
`re.finditer` for a `[c]+` character-class pattern, and of DuckDB's
`regexp_extract_all(s, '[c]+')`).  `acc` is the reversed current run. -/
def runsAux (p : Char → Bool) : List Char → List Char → List (List Char)
  | [], acc => if acc.isEmpty then [] else [acc.reverse]
  | c :: cs, acc =>
    if p c then runsAux p cs (c :: acc)
    else if acc.isEmpty then runsAux p cs []
    else acc.reverse :: runsAux p cs []

/-- `helper_functions.tokenize`: extract maximal `[A-Za-z]+` runs, lowercase
each.  (`if not content: return []` agrees with the recursion on `[]`.) -/
def tokenize (content : String) : List String :=
  (runsAux isAsciiAlpha content.data []).map (fun r => String.mk (r.map asciiLowerChar))

/-- The Builder's SQL tokenization:
`UNNEST(regexp_extract_all(lower(content), '[a-z]+'))`. -/
def sqlTokenize (content : String) : List String :=
  (runsAux isAsciiLower (content.data.map duckLowerChar) []).map (fun r => String.mk r)

/-! ## Point updates (`index_tools.delete`, `delete_N`, `insert`) -/

/-- `SELECT DISTINCT termid FROM postings WHERE docid = ?` (the
`touched_termids` temp table of `delete`). -/
def touchedTermids (s : IndexState) (d : Int) : List Int :=
  ((s.postings.filter (fun p => decide (p.docid = d))).map (fun p => p.termid)).dedup

/-- `index_tools.delete`: decrement `df` once per touched term (clamped at
0), drop touched terms whose `df` reached 0, and remove the `postings`,
`docs` and `data` rows of `d`. -/
def delete (s : IndexState) (d : Int) : IndexState :=
  let touched := touchedTermids s d
  { dict := (s.dict.map (fun r =>
        if r.termid ∈ touched then { r with df := if r.df > 0 then r.df - 1 else 0 } else r)).filter
        (fun r => decide (¬ (r.df = 0 ∧ r.termid ∈ touched)))
    docs := s.docs.filter (fun r => decide (¬ r.docid = d))
    postings := s.postings.filter (fun p => decide (¬ p.docid = d))
    data := s.data.filter (fun r => decide (¬ r.docid = d)) }

/-- The `touched_termids(termid, cnt)` temp table of `delete_N`:
`SELECT termid, COUNT(DISTINCT docid) FROM postings WHERE docid IN sel GROUP
BY termid`. -/
def touchedCounts (s : IndexState) (sel : List Int) : List (Int × Nat) :=
  (((s.postings.filter (fun p => decide (p.docid ∈ sel))).map (fun p => p.termid)).dedup).map
    (fun t => (t,
      ((s.postings.filter (fun p => decide (p.termid = t ∧ p.docid ∈ sel))).map
        (fun p => p.docid)).dedup.length))

/-- `index_tools.delete_N` / `delete_N_rand`, parametrised by the selected
batch `sel` of docids (the source chooses `sel` by `LIMIT N`, resp.
`ORDER BY RANDOM() LIMIT N`, from `docs`; the selection itself is
nondeterministic, so it is a parameter here).  Per touched term the `df` is
decremented by the count of distinct selected documents containing it
(clamped at 0), touched terms with `df = 0` are dropped, and all
`postings`/`docs`/`data` rows of the selected docids are removed. -/
def delete_N (s : IndexState) (sel : List Int) : IndexState :=
  { dict := (s.dict.map (fun r =>
        match (touchedCounts s sel).find? (fun tc => decide (tc.1 = r.termid)) with
        | some tc => { r with df := if r.df > (tc.2 : Int) then r.df - (tc.2 : Int) else 0 }
        | none => r)).filter
        (fun r => decide (¬ (r.df = 0 ∧ r.termid ∈ (touchedCounts s sel).map Prod.fst)))
    docs := s.docs.filter (fun r => decide (¬ r.docid ∈ sel))
    postings := s.postings.filter (fun p => decide (¬ p.docid ∈ sel))
    data := s.data.filter (fun r => decide (¬ r.docid ∈ sel)) }

/-- `COALESCE(MAX(docid), 0)` over `docs`: `MAX(docid)` is `NULL` exactly
when the table is empty, so the result is 0 then and the true maximum
(possibly negative) otherwise. -/
def maxDocid (s : IndexState) : Int :=
  match s.docs with
  | [] => 0
  | a :: rs => rs.foldl (fun m r => max m r.docid) a.docid

/-- `COALESCE(MAX(termid), 0)` over `dict` (the `base` CTE of `insert`):
0 exactly when `dict` is empty, the true maximum otherwise. -/
def maxTermid (s : IndexState) : Int :=
  match s.dict with
  | [] => 0
  | a :: rs => rs.foldl (fun m r => max m r.termid) a.termid

/-- `helper_functions.get_termid`: `SELECT termid FROM dict WHERE term = ?`,
first matching row or `None`. -/
def lookupTermid (dict : List DictRow) (t : String) : Option Int :=
  (dict.find? (fun r => decide (r.term = t))).map (fun r => r.termid)

/-- The docid resolved by `insert`'s `docid_sql` temp table:
`COALESCE(?, COALESCE(MAX(docid), 0) + 1)`. -/
def usedDocid (s : IndexState) (docid? : Option Int) : Int :=
  match docid? with | some d => d | none => maxDocid s + 1

/-- `insert`'s `MERGE INTO dict`: every dict row whose term occurs among
the document's distinct terms gets `df += 1`; each unseen term is inserted
with `df = 1` and termid `base + ROW_NUMBER() OVER (ORDER BY term)` — the
row number being computed over **all** distinct terms of the document (the
`annot` CTE), so existing terms leave gaps. -/
def insDict (s : IndexState) (dterms : List String) : List DictRow :=
  s.dict.map (fun r => if r.term ∈ dterms then { r with df := r.df + 1 } else r)
    ++ (dterms.filter (fun t => decide (lookupTermid s.dict t = none))).map
      (fun t => { termid := maxTermid s + 1 +
          ((dterms.filter (fun u => decide (u < t))).length : Int), term := t, df := 1 })

/-- One source row of `insert`'s `MERGE INTO postings`: resolve the term
against the post-merge dictionary `dict1`; on a `(termid, docid)` key match
update `tf`, otherwise append the posting. -/
def insPostStep (dict1 : List DictRow) (tokens : List String) (D : Int)
    (ps : List PostRow) (t : String) : List PostRow :=
  match lookupTermid dict1 t with
  | some tid =>
    if ps.any (fun p => decide (p.termid = tid ∧ p.docid = D))
    then ps.map (fun p =>
      if p.termid = tid ∧ p.docid = D then { p with tf := (tokens.count t : Int) } else p)
    else ps ++ [{ termid := tid, docid := D, tf := (tokens.count t : Int) }]
  | none => ps

/-- `insert`'s `MERGE INTO postings`: one source row per distinct term of
the document. -/
def insPost (s : IndexState) (dict1 : List DictRow) (tokens dterms : List String) (D : Int) :
    List PostRow :=
  dterms.foldl (insPostStep dict1 tokens D) s.postings

/-- `index_tools.insert`: tokenize; on an empty token list return `none`
without touching the state.  Otherwise resolve the docid
(`COALESCE(?, COALESCE(MAX(docid),0)+1)`), MERGE into `dict` (`insDict`),
MERGE the `docs` row (`len`), MERGE one posting per distinct term
(`insPost`), and MERGE the raw content row.  Returns (new state, assigned
docid). -/
def insert (s : IndexState) (doc : String) (docid? : Option Int) : IndexState × Option Int :=
  let tokens := tokenize doc
  if tokens.isEmpty then (s, none) else
  let dterms := tokens.dedup
  let docLen : Int := (tokens.length : Int)
  let D : Int := usedDocid s docid?
  let docs1 := if s.docs.any (fun r => decide (r.docid = D))
               then s.docs.map (fun r => if r.docid = D then { r with len := docLen } else r)
               else s.docs ++ [{ docid := D, len := docLen }]
  let data1 := if s.data.any (fun r => decide (r.docid = D))
               then s.data.map (fun r => if r.docid = D then { r with content := doc } else r)
               else s.data ++ [{ docid := D, content := doc }]
  ({ dict := insDict s dterms, docs := docs1,
     postings := insPost s (insDict s dterms) tokens dterms D, data := data1 }, some D)

/-! ## Full rebuild (`index_tools.build_index_to_parquet_from_ducklake`) -/

/-- The `v_token_stream` temp view: one `(docid, term)` row per token
occurrence, via the SQL tokenization. -/
def tokenStream (corpus : List (Int × String)) : List (Int × String) :=
  corpus.flatMap (fun dc => (sqlTokenize dc.2).map (fun t => (dc.1, t)))

/-- `row_number() OVER (ORDER BY term)` over the distinct terms. -/
def buildRank (terms : List String) (t : String) : Int :=
  1 + ((terms.filter (fun u => decide (u < t))).length : Int)

/-- The distinct terms of the token stream (`GROUP BY term`). -/
def buildTerms (stream : List (Int × String)) : List String := (stream.map Prod.snd).dedup

/-- The `dict.parquet` table: one row per distinct term, with
`df = COUNT(DISTINCT docid)` over the stream. -/
def buildDict (stream : List (Int × String)) : List DictRow :=
  (buildTerms stream).map (fun t =>
    { termid := buildRank (buildTerms stream) t, term := t,
      df := (((stream.filter (fun dt => decide (dt.2 = t))).map Prod.fst).dedup.length : Int) })

/-- The `postings.parquet` table: one row per distinct `(docid, term)` pair
of the stream, with `tf = COUNT(*)`. -/
def buildPostings (stream : List (Int × String)) : List PostRow :=
  (stream.dedup).map (fun dt =>
    { termid := buildRank (buildTerms stream) dt.2, docid := dt.1,
      tf := (stream.count dt : Int) })

/-- The index produced by the Builder from a corpus of `(docid, content)`
rows (the `data` table): `dict` groups the token stream by term with
`df = COUNT(DISTINCT docid)`; `docs` records per-document token counts;
`postings` groups the stream by `(termid, docid)` with `tf = COUNT(*)`. -/
def build_index (corpus : List (Int × String)) : IndexState :=
  { dict := buildDict (tokenStream corpus)
    docs := corpus.map (fun dc => { docid := dc.1, len := ((sqlTokenize dc.2).length : Int) })
    postings := buildPostings (tokenStream corpus)
    data := corpus.map (fun dc => { docid := dc.1, content := dc.2 }) }

/-! ## Query engine (`fts_tools.conjunctive_bm25` / `disjunctive_bm25`)

The SQL computes scores in `DOUBLE`; the embedding computes them in an
arbitrary linear ordered field `α` (instantiated at `ℝ` in the theorems),
with `ln` passed in as a function `lg : α → α`. -/

/-- `helper_functions.tokenize_query`: tokenize the query and map each token
to its termid via `get_termid`, silently discarding tokens not present in
`dict`.  Note that the token list is **not** deduplicated. -/
def tokenize_query (s : IndexState) (q : String) : List Int :=
  (tokenize q).filterMap (fun t => lookupTermid s.dict t)

variable {α : Type} [LinearOrderedField α]

/-- `K1 = 1.2` of `fts_tools.py`. -/
def bm25K1 : α := 6 / 5

/-- `B = 0.75` of `fts_tools.py`. -/
def bm25B : α := 3 / 4

/-- `COUNT(*)` of the `corpus_stats` CTE. -/
def corpusN (s : IndexState) : Nat := s.docs.length

/-- `AVG(d.len)` of the `corpus_stats` CTE. -/
def avgdl (s : IndexState) : α := ((s.docs.map (fun r => r.len)).sum : Int) / (s.docs.length : α)

/-- A row of the `term_hits` CTE (`tf` and `len` already cast to the score
field, as the SQL casts them to `DOUBLE`). -/
structure THRow (α : Type) where
  docid : Int
  termid : Int
  tf : α
  len : α

/-- The `term_hits` CTE: postings with `termid IN query_terms`, joined with
`docs` on `docid`. -/
def termHits (s : IndexState) (tids : List Int) : List (THRow α) :=
  s.postings.flatMap (fun p =>
    if p.termid ∈ tids then
      (s.docs.filter (fun r => decide (r.docid = p.docid))).map
        (fun r => { docid := p.docid, termid := p.termid, tf := ((p.tf : Int) : α), len := ((r.len : Int) : α) })
    else [])

/-- The `idf_table` CTE: for each dict row with `termid IN query_terms`,
`ln((N - df + 0.5) / (df + 0.5))`. -/
def idfTable (s : IndexState) (tids : List Int) (lg : α → α) (N : α) : List (Int × α) :=
  (s.dict.filter (fun r => decide (r.termid ∈ tids))).map
    (fun r => (r.termid, lg ((N - (r.df : α) + 1 / 2) / ((r.df : α) + 1 / 2))))

/-- The `conjunctive_documents` CTE: docids of `term_hits` whose number of
distinct matched termids equals `COUNT(*) FROM query_terms` (the length of
the query's termid list, duplicates included). -/
def conjCandidates (ths : List (THRow α)) (qcount : Nat) : List Int :=
  ((ths.map (fun th => th.docid)).dedup).filter (fun d =>
    decide ((((ths.filter (fun th => decide (th.docid = d))).map (fun th => th.termid)).dedup.length = qcount)))

/-- One BM25 summand:
`idf * ((k1+1)*tf) / (tf + k1*(1 - b + b*(len/avgdl)))`. -/
def tfNorm (tf len adl : α) : α :=
  ((bm25K1 + 1) * tf) / (tf + bm25K1 * (1 - bm25B + bm25B * (len / adl)))

/-- `term_hits JOIN conjunctive_documents JOIN idf_table` (each surviving
row paired with its term's idf). -/
def joinRowsConj (ths : List (THRow α)) (cands : List Int) (idf : List (Int × α)) :
    List (THRow α × α) :=
  (ths.filter (fun th => decide (th.docid ∈ cands))).flatMap (fun th =>
    (idf.filter (fun ir => decide (ir.1 = th.termid))).map (fun ir => (th, ir.2)))

/-- `term_hits JOIN idf_table` (the disjunctive variant has no candidate
restriction). -/
def joinRowsDisj (ths : List (THRow α)) (idf : List (Int × α)) : List (THRow α × α) :=
  ths.flatMap (fun th =>
    (idf.filter (fun ir => decide (ir.1 = th.termid))).map (fun ir => (th, ir.2)))

/-- The `scored` CTE: `GROUP BY docid` with
`SUM(idf * ((k1+1)*tf) / (tf + k1*(1 - b + b*(len/avgdl))))`. -/
def groupScores (rows : List (THRow α × α)) (adl : α) : List (Int × α) :=
  ((rows.map (fun r => r.1.docid)).dedup).map (fun d =>
    (d, ((rows.filter (fun r => decide (r.1.docid = d))).map
      (fun r => r.2 * tfNorm r.1.tf r.1.len adl)).sum))

/-- `ORDER BY score DESC LIMIT n`. -/
def rankTopN (scored : List (Int × α)) (n : Nat) : List (Int × α) :=
  (scored.mergeSort (fun x y => decide (y.2 ≤ x.2))).take n

/-- `fts_tools.conjunctive_bm25`: empty resolved termid list short-circuits
to `[]`; otherwise run the conjunctive SQL pipeline. -/
def conjunctive_bm25 (lg : α → α) (s : IndexState) (q : String) (n : Nat) : List (Int × α) :=
  let tids := tokenize_query s q
  if tids.isEmpty then [] else
  let N : α := (corpusN s : Nat)
  let adl : α := avgdl s
  let ths : List (THRow α) := termHits s tids
  let idf := idfTable s tids lg N
  rankTopN (groupScores (joinRowsConj ths (conjCandidates ths tids.length) idf) adl) n

/-- `fts_tools.disjunctive_bm25`: like the conjunctive variant but scoring
every document with at least one matching posting. -/
def disjunctive_bm25 (lg : α → α) (s : IndexState) (q : String) (n : Nat) : List (Int × α) :=
  let tids := tokenize_query s q
  if tids.isEmpty then [] else
  let N : α := (corpusN s : Nat)
  let adl : α := avgdl s
  let ths : List (THRow α) := termHits s tids
  let idf := idfTable s tids lg N
  rankTopN (groupScores (joinRowsDisj ths idf) adl) n

/-! ## Connection / transaction model

`index_tools.modify` wraps `delete` and `insert` — which both issue their
own `BEGIN`/`COMMIT` — inside a further `BEGIN`.  The backing store (DuckDB)
rejects `BEGIN` while a transaction is active (`cannot start a transaction
within a transaction`) and rejects `ROLLBACK` when none is active, so the
scripts are modelled over a connection carrying the committed state, the
transaction-local state and an in-transaction flag.  Each script returns
`(some errorMessage, con)` when the Python function raises, and
`(none, con)` when it returns normally. -/

/-- `COUNT(DISTINCT docid)` over the postings of one term. -/
def docFreq (s : IndexState) (t : Int) : Nat :=
  ((s.postings.filter (fun p => decide (p.termid = t))).map (fun p => p.docid)).dedup.length

/-- The dictionary invariant: every `dict` row's `df` equals the number of
distinct docids having a posting row for that term. -/
def dfInv (s : IndexState) : Prop :=
  ∀ r ∈ s.dict, r.df = (docFreq s r.termid : Int)

/-- Key well-formedness of the tables: `term` and `termid` are keys of
`dict`, `(termid, docid)` is a key of `postings`, `docid` is a key of
`docs`. -/
def wfKeys (s : IndexState) : Prop :=
  (s.dict.map (fun r => r.term)).Nodup ∧ (s.dict.map (fun r => r.termid)).Nodup ∧
    (s.postings.map (fun p => (p.termid, p.docid))).Nodup ∧
    (s.docs.map (fun r => r.docid)).Nodup

instance (s : IndexState) : Decidable (dfInv s) := by
  unfold dfInv; infer_instance

instance (s : IndexState) : Decidable (wfKeys s) := by
  unfold wfKeys; infer_instance

/-! ## Concrete states used as witnesses and counterexamples -/

/-- The index holding the single document `1 ↦ "apple"`. -/
def exA : IndexState :=
  { dict := [{ termid := 1, term := "apple", df := 1 }]
    docs := [{ docid := 1, len := 1 }]
    postings := [{ termid := 1, docid := 1, tf := 1 }]
    data := [{ docid := 1, content := "apple" }] }

/-- A state satisfying the `df` invariant in which a posting row exists for
docid `1` although no `docs` row does. -/
def exStray : IndexState :=
  { dict := [{ termid := 1, term := "a", df := 1 }]
    docs := []
    postings := [{ termid := 1, docid := 1, tf := 1 }]
    data := [] }

/-! ## C10 — insert of content with no tokens is a no-op returning `none` -/

/-- **C10.** If the content tokenizes to the empty list, `insert` returns
`None` and leaves the state untouched (no Document, Dictionary, Postings or
raw-content change). -/
theorem insert_empty_content_noop (s : IndexState) (doc : String) (docid? : Option Int)
    (h : tokenize doc = []) : insert s doc docid? = (s, none) := by
  unfold insert
  rw [h]
  rfl

/-- Witness for C10 at content `"2025 !?"` (digits/punctuation only). -/
theorem insert_empty_content_noop_witness :
    tokenize "2025 !?" = [] ∧ insert exA "2025 !?" none = (exA, none) :=
  ⟨by decide, insert_empty_content_noop exA "2025 !?" none (by decide)⟩

/-! ## C7 — delete of an absent document is a no-op -/

/-- **C7.** Deleting a docid that has no Document row (neither `docs` nor
raw-content `data`) and no postings leaves the state exactly unchanged and
raises no error. -/
theorem delete_missing_docid_noop (s : IndexState) (d : Int)
    (hdocs : ∀ r ∈ s.docs, r.docid ≠ d)
    (hpost : ∀ p ∈ s.postings, p.docid ≠ d)
    (hdata : ∀ r ∈ s.data, r.docid ≠ d) :
    delete s d = s := by
  have htouch : touchedTermids s d = [] := by
    unfold touchedTermids
    have h0 : s.postings.filter (fun p => decide (p.docid = d)) = [] := by
      rw [List.filter_eq_nil_iff]
      intro p hp
      simp [hpost p hp]
    rw [h0]
    rfl
  have hdict : (s.dict.map (fun r =>
      if r.termid ∈ touchedTermids s d then { r with df := if r.df > 0 then r.df - 1 else 0 } else r)).filter
      (fun r => decide (¬ (r.df = 0 ∧ r.termid ∈ touchedTermids s d))) = s.dict := by
    rw [htouch]
    simp
  have hdocs2 : s.docs.filter (fun r => decide (¬ r.docid = d)) = s.docs := by
    rw [List.filter_eq_self]
    intro r hr
    simp [hdocs r hr]
  have hpost2 : s.postings.filter (fun p => decide (¬ p.docid = d)) = s.postings := by
    rw [List.filter_eq_self]
    intro p hp
    simp [hpost p hp]
  have hdata2 : s.data.filter (fun r => decide (¬ r.docid = d)) = s.data := by
    rw [List.filter_eq_self]
    intro r hr
    simp [hdata r hr]
  show IndexState.mk _ _ _ _ = s
  rw [hdict, hdocs2, hpost2, hdata2]

/-- Witness for C7: deleting docid `99` from the one-document index. -/
theorem delete_missing_docid_noop_witness :
    ((∀ r ∈ exA.docs, r.docid ≠ 99) ∧ (∀ p ∈ exA.postings, p.docid ≠ 99) ∧
      (∀ r ∈ exA.data, r.docid ≠ 99)) ∧ delete exA 99 = exA :=
  ⟨⟨by decide, by decide, by decide⟩,
    delete_missing_docid_noop exA 99 (by decide) (by decide) (by decide)⟩

/-! ## C6 — modify is broken: its nested `BEGIN` always raises -/

/-- **C2 (counterexample).** Against the claim, `insert` with a docid whose
Document row already exists raises no `DuplicateDocumentError` (no such
error exists in the source): it returns the docid and commits changes. -/
theorem insert_duplicate_docid_no_error :
    (∃ r ∈ exA.docs, r.docid = 1) ∧
    (insert exA "apple" (some 1)).2 = some 1 ∧
    (insert exA "apple" (some 1)).1 ≠ exA := by decide

/-- **C2 (amended).** `insert(content, docid)` with an already-catalogued
docid succeeds: it returns the same docid, keeps the set of Document rows
(updating the matched row's `len` to the new token count in place), and
increments `df` of every dictionary term occurring in the new content. -/
theorem insert_duplicate_docid_upserts (s : IndexState) (doc : String) (D : Int)
    (htok : tokenize doc ≠ [])
    (hex : ∃ r ∈ s.docs, r.docid = D) :
    (insert s doc (some D)).2 = some D ∧
    (insert s doc (some D)).1.docs.map (fun r => r.docid) = s.docs.map (fun r => r.docid) ∧
    (∀ r ∈ (insert s doc (some D)).1.docs, r.docid = D → r.len = ((tokenize doc).length : Int)) ∧
    (∀ r ∈ s.dict, r.term ∈ (tokenize doc).dedup →
      ({ r with df := r.df + 1 } : DictRow) ∈ (insert s doc (some D)).1.dict) := by
  have hne : (tokenize doc).isEmpty = false := by
    cases h : tokenize doc with
    | nil => exact absurd h htok
    | cons a l => rfl
  obtain ⟨r0, hr0, hr0d⟩ := hex
  have hany : s.docs.any (fun r => decide (r.docid = D)) = true := by
    rw [List.any_eq_true]
    exact ⟨r0, hr0, by simp [hr0d]⟩
  unfold insert insDict
  simp only [hne, Bool.false_eq_true, if_false, hany, if_true, usedDocid]
  refine ⟨by trivial, ?_, ?_, ?_⟩
  · rw [List.map_map]
    apply List.map_congr_left
    intro r _
    by_cases h : r.docid = D
    · simp [h]
    · simp [h]
  · intro r' hr' hD
    rw [List.mem_map] at hr'
    obtain ⟨r, _, rfl⟩ := hr'
    by_cases h : r.docid = D
    · simp [h]
    · simp only [if_neg h] at hD
      exact absurd hD h
  · intro r hr hterm
    apply List.mem_append_left
    rw [List.mem_map]
    exact ⟨r, hr, by rw [if_pos hterm]⟩

/-- Witness for C2 (amended): re-inserting content at the existing docid
`1`. -/
theorem insert_duplicate_docid_upserts_witness :
    (tokenize "pear apple" ≠ [] ∧ (∃ r ∈ exA.docs, r.docid = 1)) ∧
    ((insert exA "pear apple" (some 1)).2 = some 1 ∧
      (insert exA "pear apple" (some 1)).1.docs.map (fun r => r.docid) =
        exA.docs.map (fun r => r.docid) ∧
      (∀ r ∈ (insert exA "pear apple" (some 1)).1.docs, r.docid = 1 →
        r.len = ((tokenize "pear apple").length : Int)) ∧
      (∀ r ∈ exA.dict, r.term ∈ (tokenize "pear apple").dedup →
        ({ r with df := r.df + 1 } : DictRow) ∈ (insert exA "pear apple" (some 1)).1.dict)) :=
  ⟨⟨by decide, by decide⟩,
    insert_duplicate_docid_upserts exA "pear apple" 1 (by decide) (by decide)⟩

/-! ## C1 — the `df` invariant: counterexample for `insert` as claimed -/

/-- **C1 (counterexample).** A state satisfying the `df` invariant in which
the docid `insert` resolves (here `max(docid)+1 = 1`, not present in
`docs`) already has a posting row: the `MERGE` into `postings` then merely
updates that row's `tf`, while every matched term's `df` is still bumped,
breaking the invariant. -/
theorem df_invariant_insert_counterexample :
    dfInv exStray ∧ (∀ r ∈ exStray.docs, r.docid ≠ usedDocid exStray none) ∧
    ¬ dfInv (insert exStray "a" none).1 := by decide

/-! ## C9 — Builder vs shared tokenizer: counterexample -/

/-- **C9 (counterexample).** The Builder lowercases the whole document with
DuckDB's Unicode-aware `lower` before extracting `[a-z]+` runs, while
`helper_functions.tokenize` matches `[A-Za-z]+` (ASCII only) and lowercases
the matches.  On the Kelvin sign U+212A (which `lower` maps to `k`) the two
paths disagree. -/
theorem tokenization_paths_diverge_kelvin :
    sqlTokenize "K" = ["k"] ∧ tokenize "K" = [] := by decide

/-! ## C5 — deleteBatch semantics -/

/-- The number of **distinct** selected documents containing term `t`. -/
def selDocCount (s : IndexState) (sel : List Int) (t : Int) : Nat :=
  ((s.postings.filter (fun p => decide (p.termid = t ∧ p.docid ∈ sel))).map
    (fun p => p.docid)).dedup.length

theorem find?_eq_self_pred {β : Type} [DecidableEq β] (l : List β) (t : β) :
    l.find? (fun u => decide (u = t)) = if t ∈ l then some t else none := by
  induction l with
  | nil => simp
  | cons a l ih =>
    by_cases h : a = t
    · subst h
      simp
    · rw [List.find?_cons_of_neg l (by simp [h]), ih]
      by_cases ht : t ∈ l
      · rw [if_pos ht, if_pos (List.mem_cons_of_mem a ht)]
      · rw [if_neg ht, if_neg ?_]
        rw [List.mem_cons]
        rintro (rfl | hmem)
        · exact h rfl
        · exact ht hmem

theorem zero_lt_selDocCount_iff (s : IndexState) (sel : List Int) (t : Int) :
    0 < selDocCount s sel t ↔ ∃ p ∈ s.postings, p.termid = t ∧ p.docid ∈ sel := by
  unfold selDocCount
  rw [List.length_pos_iff_exists_mem]
  constructor
  · rintro ⟨x, hx⟩
    rw [List.mem_dedup, List.mem_map] at hx
    obtain ⟨p, hp, _⟩ := hx
    rw [List.mem_filter, decide_eq_true_iff] at hp
    exact ⟨p, hp.1, hp.2⟩
  · rintro ⟨p, hp, hcond⟩
    refine ⟨p.docid, ?_⟩
    rw [List.mem_dedup, List.mem_map]
    exact ⟨p, List.mem_filter.mpr ⟨hp, decide_eq_true_iff.mpr hcond⟩, rfl⟩

theorem mem_touched_map_iff (s : IndexState) (sel : List Int) (t : Int) :
    t ∈ (((s.postings.filter (fun p => decide (p.docid ∈ sel))).map
        (fun p => p.termid)).dedup) ↔ 0 < selDocCount s sel t := by
  rw [zero_lt_selDocCount_iff, List.mem_dedup, List.mem_map]
  constructor
  · rintro ⟨p, hp, rfl⟩
    rw [List.mem_filter, decide_eq_true_iff] at hp
    exact ⟨p, hp.1, rfl, hp.2⟩
  · rintro ⟨p, hp, rfl, hsel⟩
    exact ⟨p, List.mem_filter.mpr ⟨hp, decide_eq_true_iff.mpr hsel⟩, rfl⟩

theorem mem_touchedCounts_fst_iff (s : IndexState) (sel : List Int) (t : Int) :
    t ∈ (touchedCounts s sel).map Prod.fst ↔ 0 < selDocCount s sel t := by
  unfold touchedCounts
  rw [List.map_map]
  rw [show ((Prod.fst ∘ fun t' => (t',
      ((s.postings.filter (fun p => decide (p.termid = t' ∧ p.docid ∈ sel))).map
        (fun p => p.docid)).dedup.length)) : Int → Int) = id from rfl]
  rw [List.map_id]
  exact mem_touched_map_iff s sel t

theorem touchedCounts_find? (s : IndexState) (sel : List Int) (t : Int) :
    (touchedCounts s sel).find? (fun tc => decide (tc.1 = t)) =
      if 0 < selDocCount s sel t then some (t, selDocCount s sel t) else none := by
  unfold touchedCounts
  rw [show (fun t' => (t',
      ((s.postings.filter (fun p => decide (p.termid = t' ∧ p.docid ∈ sel))).map
        (fun p => p.docid)).dedup.length)) = fun t' => (t', selDocCount s sel t') from rfl]
  rw [List.find?_map]
  rw [show ((fun tc : Int × Nat => decide (tc.1 = t)) ∘ fun t' => (t', selDocCount s sel t')) =
      fun u => decide (u = t) from rfl]
  rw [find?_eq_self_pred]
  by_cases h : 0 < selDocCount s sel t
  · rw [if_pos ((mem_touched_map_iff s sel t).mpr h), if_pos h]
    rfl
  · rw [if_neg (fun hc => h ((mem_touched_map_iff s sel t).mp hc)), if_neg h]
    rfl

/-- **C5.** For every selected batch `sel`, `delete_N` decrements each
touched term's `df` by the count of **distinct** selected documents
containing it (clamped at 0, and a term is touched exactly when that count
is positive), removes every touched term whose `df` reached 0, and deletes
all `postings`, `docs` and raw-content rows of the selected docids — the
whole change being the single state transition of one transaction. -/
theorem delete_N_batch_spec (s : IndexState) (sel : List Int) :
    (delete_N s sel).dict = (s.dict.map (fun r =>
        if 0 < selDocCount s sel r.termid
        then { r with df := max (r.df - (selDocCount s sel r.termid : Int)) 0 } else r)).filter
        (fun r => decide (¬ (r.df = 0 ∧ 0 < selDocCount s sel r.termid))) ∧
    (delete_N s sel).postings = s.postings.filter (fun p => decide (¬ p.docid ∈ sel)) ∧
    (delete_N s sel).docs = s.docs.filter (fun r => decide (¬ r.docid ∈ sel)) ∧
    (delete_N s sel).data = s.data.filter (fun r => decide (¬ r.docid ∈ sel)) := by
  unfold delete_N
  refine ⟨?_, rfl, rfl, rfl⟩
  have hmap : s.dict.map (fun r =>
      match (touchedCounts s sel).find? (fun tc => decide (tc.1 = r.termid)) with
      | some tc => { r with df := if r.df > (tc.2 : Int) then r.df - (tc.2 : Int) else 0 }
      | none => r) = s.dict.map (fun r =>
      if 0 < selDocCount s sel r.termid
      then { r with df := max (r.df - (selDocCount s sel r.termid : Int)) 0 } else r) := by
    apply List.map_congr_left
    intro r _
    rw [touchedCounts_find? s sel r.termid]
    by_cases h : 0 < selDocCount s sel r.termid
    · rw [if_pos h, if_pos h]
      have hifmax : (if r.df > (selDocCount s sel r.termid : Int)
          then r.df - (selDocCount s sel r.termid : Int) else 0) =
          max (r.df - (selDocCount s sel r.termid : Int)) 0 := by
        split
        · rw [max_eq_left (by omega)]
        · rw [max_eq_right (by omega)]
      show ({ r with df := if r.df > (selDocCount s sel r.termid : Int)
          then r.df - (selDocCount s sel r.termid : Int) else 0 } : DictRow) = _
      rw [hifmax]
    · rw [if_neg h, if_neg h]
  rw [hmap]
  apply List.filter_congr
  intro r _
  rw [decide_eq_decide, mem_touchedCounts_fst_iff]

/-! ## C1 — preservation of the `df` invariant -/

/-- The set of docids having a posting row for term `t`. -/
def postDocs (s : IndexState) (t : Int) : Finset Int :=
  ((s.postings.filter (fun p => decide (p.termid = t))).map (fun p => p.docid)).toFinset

theorem docFreq_eq_card (s : IndexState) (t : Int) : docFreq s t = (postDocs s t).card := by
  unfold docFreq postDocs
  rw [List.card_toFinset]

theorem mem_postDocs_iff (s : IndexState) (t d : Int) :
    d ∈ postDocs s t ↔ ∃ p ∈ s.postings, p.termid = t ∧ p.docid = d := by
  unfold postDocs
  rw [List.mem_toFinset, List.mem_map]
  constructor
  · rintro ⟨p, hp, rfl⟩
    rw [List.mem_filter, decide_eq_true_iff] at hp
    exact ⟨p, hp.1, hp.2, rfl⟩
  · rintro ⟨p, hp, ht, rfl⟩
    exact ⟨p, List.mem_filter.mpr ⟨hp, decide_eq_true_iff.mpr ht⟩, rfl⟩

theorem mem_touchedTermids_iff (s : IndexState) (d t : Int) :
    t ∈ touchedTermids s d ↔ d ∈ postDocs s t := by
  unfold touchedTermids
  rw [mem_postDocs_iff, List.mem_dedup, List.mem_map]
  constructor
  · rintro ⟨p, hp, rfl⟩
    rw [List.mem_filter, decide_eq_true_iff] at hp
    exact ⟨p, hp.1, rfl, hp.2⟩
  · rintro ⟨p, hp, rfl, hd⟩
    exact ⟨p, List.mem_filter.mpr ⟨hp, decide_eq_true_iff.mpr hd⟩, rfl⟩

theorem delete_postings (s : IndexState) (d : Int) :
    (delete s d).postings = s.postings.filter (fun p => decide (¬ p.docid = d)) := rfl

theorem delete_dict (s : IndexState) (d : Int) :
    (delete s d).dict = (s.dict.map (fun r =>
      if r.termid ∈ touchedTermids s d
      then { r with df := if r.df > 0 then r.df - 1 else 0 } else r)).filter
      (fun r => decide (¬ (r.df = 0 ∧ r.termid ∈ touchedTermids s d))) := rfl

theorem postDocs_delete (s : IndexState) (d t : Int) :
    postDocs (delete s d) t = (postDocs s t).erase d := by
  ext x
  rw [Finset.mem_erase, mem_postDocs_iff, mem_postDocs_iff, delete_postings]
  constructor
  · rintro ⟨p, hp, ht, rfl⟩
    rw [List.mem_filter, decide_eq_true_iff] at hp
    exact ⟨hp.2, p, hp.1, ht, rfl⟩
  · rintro ⟨hne, p, hp, ht, rfl⟩
    exact ⟨p, List.mem_filter.mpr ⟨hp, decide_eq_true_iff.mpr hne⟩, ht, rfl⟩

theorem dfInv_delete (s : IndexState) (hinv : dfInv s) (d : Int) : dfInv (delete s d) := by
  intro r' hr'
  rw [delete_dict, List.mem_filter] at hr'
  obtain ⟨hm, _⟩ := hr'
  rw [List.mem_map] at hm
  obtain ⟨r, hr, rfl⟩ := hm
  rw [docFreq_eq_card, postDocs_delete]
  by_cases htouch : r.termid ∈ touchedTermids s d
  · rw [if_pos htouch]
    have hd : d ∈ postDocs s r.termid := (mem_touchedTermids_iff s d r.termid).mp htouch
    have hdf : r.df = ((postDocs s r.termid).card : Int) := by
      rw [hinv r hr, docFreq_eq_card]
    have hpos : 0 < (postDocs s r.termid).card := Finset.card_pos.mpr ⟨d, hd⟩
    show (if r.df > 0 then r.df - 1 else 0) = (((postDocs s r.termid).erase d).card : Int)
    rw [if_pos (by omega), Finset.card_erase_of_mem hd]
    omega
  · rw [if_neg htouch]
    have hd : d ∉ postDocs s r.termid := fun hc =>
      htouch ((mem_touchedTermids_iff s d r.termid).mpr hc)
    rw [Finset.erase_eq_of_not_mem hd, hinv r hr, docFreq_eq_card]

theorem delete_N_postings (s : IndexState) (sel : List Int) :
    (delete_N s sel).postings = s.postings.filter (fun p => decide (¬ p.docid ∈ sel)) := rfl

theorem delete_N_dict (s : IndexState) (sel : List Int) :
    (delete_N s sel).dict = (s.dict.map (fun r =>
      match (touchedCounts s sel).find? (fun tc => decide (tc.1 = r.termid)) with
      | some tc => { r with df := if r.df > (tc.2 : Int) then r.df - (tc.2 : Int) else 0 }
      | none => r)).filter
      (fun r => decide (¬ (r.df = 0 ∧ r.termid ∈ (touchedCounts s sel).map Prod.fst))) := rfl

theorem postDocs_delete_N (s : IndexState) (sel : List Int) (t : Int) :
    postDocs (delete_N s sel) t = postDocs s t \ sel.toFinset := by
  ext x
  rw [Finset.mem_sdiff, List.mem_toFinset, mem_postDocs_iff, mem_postDocs_iff,
    delete_N_postings]
  constructor
  · rintro ⟨p, hp, ht, rfl⟩
    rw [List.mem_filter, decide_eq_true_iff] at hp
    exact ⟨⟨p, hp.1, ht, rfl⟩, hp.2⟩
  · rintro ⟨⟨p, hp, ht, rfl⟩, hne⟩
    exact ⟨p, List.mem_filter.mpr ⟨hp, decide_eq_true_iff.mpr hne⟩, ht, rfl⟩

theorem selDocCount_eq_card (s : IndexState) (sel : List Int) (t : Int) :
    selDocCount s sel t = (postDocs s t ∩ sel.toFinset).card := by
  unfold selDocCount
  rw [← List.card_toFinset]
  congr 1
  ext x
  rw [List.mem_toFinset, Finset.mem_inter, List.mem_toFinset, mem_postDocs_iff, List.mem_map]
  constructor
  · rintro ⟨p, hp, rfl⟩
    rw [List.mem_filter, decide_eq_true_iff] at hp
    exact ⟨⟨p, hp.1, hp.2.1, rfl⟩, hp.2.2⟩
  · rintro ⟨⟨p, hp, ht, rfl⟩, hsel⟩
    exact ⟨p, List.mem_filter.mpr ⟨hp, decide_eq_true_iff.mpr ⟨ht, hsel⟩⟩, rfl⟩

theorem dfInv_delete_N (s : IndexState) (hinv : dfInv s) (sel : List Int) :
    dfInv (delete_N s sel) := by
  intro r' hr'
  rw [delete_N_dict, List.mem_filter] at hr'
  obtain ⟨hm, _⟩ := hr'
  rw [List.mem_map] at hm
  obtain ⟨r, hr, rfl⟩ := hm
  rw [docFreq_eq_card, postDocs_delete_N]
  rw [touchedCounts_find? s sel r.termid]
  have hdf : r.df = ((postDocs s r.termid).card : Int) := by
    rw [hinv r hr, docFreq_eq_card]
  have hcnt : selDocCount s sel r.termid = (postDocs s r.termid ∩ sel.toFinset).card :=
    selDocCount_eq_card s sel r.termid
  have hsd : (postDocs s r.termid \ sel.toFinset).card +
      (postDocs s r.termid ∩ sel.toFinset).card = (postDocs s r.termid).card :=
    Finset.card_sdiff_add_card_inter _ _
  by_cases h : 0 < selDocCount s sel r.termid
  · rw [if_pos h]
    show (if r.df > (selDocCount s sel r.termid : Int)
        then r.df - (selDocCount s sel r.termid : Int) else 0) =
      (((postDocs s r.termid) \ sel.toFinset).card : Int)
    split
    · omega
    · omega
  · rw [if_neg h]
    show r.df = (((postDocs s r.termid) \ sel.toFinset).card : Int)
    omega

theorem foldl_max_init_le (l : List DictRow) (init : Int) :
    init ≤ l.foldl (fun m r => max m r.termid) init := by
  induction l generalizing init with
  | nil => exact le_refl _
  | cons a l ih => exact le_trans (le_max_left _ _) (ih (max init a.termid))

theorem foldl_max_mem_le (l : List DictRow) :
    ∀ (init : Int), ∀ r ∈ l, r.termid ≤ l.foldl (fun m r => max m r.termid) init := by
  induction l with
  | nil => intro init r hr; cases hr
  | cons a l ih =>
    intro init r hr
    rcases List.mem_cons.mp hr with rfl | hr
    · exact le_trans (le_max_right init r.termid) (foldl_max_init_le l _)
    · exact ih (max init a.termid) r hr

theorem le_maxTermid (s : IndexState) (r : DictRow) (hr : r ∈ s.dict) :
    r.termid ≤ maxTermid s := by
  unfold maxTermid
  cases hd : s.dict with
  | nil => rw [hd] at hr; cases hr
  | cons a rs =>
    rw [hd] at hr
    show r.termid ≤ rs.foldl (fun m r => max m r.termid) a.termid
    rcases List.mem_cons.mp hr with rfl | hr
    · exact foldl_max_init_le rs r.termid
    · exact foldl_max_mem_le rs a.termid r hr

/-- The termid `insert` associates to a distinct term of the document: the
existing termid when the term is already in the dictionary, otherwise
`maxTermid + ROW_NUMBER() OVER (ORDER BY term)` over all distinct terms of
the document. -/
def tidOf (s : IndexState) (dterms : List String) (t : String) : Int :=
  match lookupTermid s.dict t with
  | some k => k
  | none => maxTermid s + 1 + ((dterms.filter (fun u => decide (u < t))).length : Int)

theorem lookupTermid_append (d1 d2 : List DictRow) (t : String) :
    lookupTermid (d1 ++ d2) t = (lookupTermid d1 t).or (lookupTermid d2 t) := by
  unfold lookupTermid
  rw [List.find?_append]
  cases d1.find? (fun r => decide (r.term = t)) <;> rfl

theorem lookupTermid_map_bump (s : IndexState) (dterms : List String) (t : String) :
    lookupTermid (s.dict.map (fun r =>
      if r.term ∈ dterms then { r with df := r.df + 1 } else r)) t
      = lookupTermid s.dict t := by
  unfold lookupTermid
  rw [List.find?_map]
  rw [show ((fun r : DictRow => decide (r.term = t)) ∘
      (fun r => if r.term ∈ dterms then { r with df := r.df + 1 } else r)) =
      fun r : DictRow => decide (r.term = t) from by
    funext r
    by_cases h : r.term ∈ dterms
    · simp [h]
    · simp [h]]
  cases hf : s.dict.find? (fun r => decide (r.term = t)) with
  | none => rfl
  | some r0 =>
    show some ((if r0.term ∈ dterms then { r0 with df := r0.df + 1 } else r0).termid) =
      some r0.termid
    by_cases h : r0.term ∈ dterms
    · rw [if_pos h]
    · rw [if_neg h]

theorem lookupTermid_newRows (s : IndexState) (dterms newTerms : List String) (t : String) :
    lookupTermid (newTerms.map
      (fun u => { termid := maxTermid s + 1 +
          ((dterms.filter (fun v => decide (v < u))).length : Int), term := u, df := 1 })) t =
    if t ∈ newTerms
    then some (maxTermid s + 1 + ((dterms.filter (fun v => decide (v < t))).length : Int))
    else none := by
  unfold lookupTermid
  rw [List.find?_map]
  rw [show ((fun r : DictRow => decide (r.term = t)) ∘
      (fun u => ({ termid := maxTermid s + 1 +
          ((dterms.filter (fun v => decide (v < u))).length : Int), term := u, df := 1 } :
        DictRow))) = fun u => decide (u = t) from rfl]
  rw [find?_eq_self_pred]
  by_cases h : t ∈ newTerms
  · rw [if_pos h, if_pos h]
    rfl
  · rw [if_neg h, if_neg h]
    rfl

theorem lookupTermid_insDict (s : IndexState) (dterms : List String) (t : String)
    (ht : t ∈ dterms) :
    lookupTermid (insDict s dterms) t = some (tidOf s dterms t) := by
  unfold insDict
  rw [lookupTermid_append, lookupTermid_map_bump, lookupTermid_newRows]
  unfold tidOf
  cases hf : lookupTermid s.dict t with
  | some k => rfl
  | none =>
    rw [if_pos (List.mem_filter.mpr ⟨ht, decide_eq_true_iff.mpr hf⟩)]
    rfl

theorem lookupTermid_mem (dict : List DictRow) (t : String) (k : Int)
    (h : lookupTermid dict t = some k) : ∃ r ∈ dict, r.term = t ∧ r.termid = k := by
  unfold lookupTermid at h
  cases hf : dict.find? (fun r => decide (r.term = t)) with
  | none => rw [hf] at h; cases h
  | some r0 =>
    rw [hf] at h
    injection h with h
    have hp := List.find?_some hf
    rw [decide_eq_true_iff] at hp
    exact ⟨r0, List.mem_of_find?_eq_some hf, hp, h⟩

theorem lookupTermid_self (dict : List DictRow)
    (hterm : (dict.map (fun r => r.term)).Nodup)
    (r : DictRow) (hr : r ∈ dict) : lookupTermid dict r.term = some r.termid := by
  cases hf : dict.find? (fun r' => decide (r'.term = r.term)) with
  | none =>
    rw [List.find?_eq_none] at hf
    exact absurd (by simp) (hf r hr)
  | some r0 =>
    have ht := List.find?_some hf
    rw [decide_eq_true_iff] at ht
    have hm := List.mem_of_find?_eq_some hf
    have hr0 : r0 = r := List.inj_on_of_nodup_map hterm hm hr ht
    unfold lookupTermid
    rw [hf, hr0]
    rfl

theorem rank_lt (dterms : List String) (hnd : dterms.Nodup) (t u : String)
    (ht : t ∈ dterms) (hlt : t < u) :
    (dterms.filter (fun v => decide (v < t))).length <
      (dterms.filter (fun v => decide (v < u))).length := by
  have hlt1 : (dterms.filter (fun v => decide (v < t))).toFinset.card <
      (dterms.filter (fun v => decide (v < u))).toFinset.card := by
    apply Finset.card_lt_card
    refine (Finset.ssubset_iff_of_subset ?_).mpr ?_
    · intro x hx
      rw [List.mem_toFinset, List.mem_filter, decide_eq_true_iff] at hx ⊢
      exact ⟨hx.1, lt_trans hx.2 hlt⟩
    · refine ⟨t, ?_, ?_⟩
      · rw [List.mem_toFinset, List.mem_filter, decide_eq_true_iff]
        exact ⟨ht, hlt⟩
      · rw [List.mem_toFinset, List.mem_filter, decide_eq_true_iff]
        rintro ⟨-, hc⟩
        exact lt_irrefl t hc
  rw [List.card_toFinset, List.card_toFinset, (hnd.filter _).dedup, (hnd.filter _).dedup]
    at hlt1
  exact hlt1

theorem tidOf_of_some (s : IndexState) (dterms : List String) (t : String) (k : Int)
    (h : lookupTermid s.dict t = some k) : tidOf s dterms t = k := by
  unfold tidOf
  rw [h]

theorem tidOf_of_none (s : IndexState) (dterms : List String) (t : String)
    (h : lookupTermid s.dict t = none) :
    tidOf s dterms t =
      maxTermid s + 1 + ((dterms.filter (fun u => decide (u < t))).length : Int) := by
  unfold tidOf
  rw [h]

theorem tidOf_inj (s : IndexState) (dterms : List String)
    (hnd : dterms.Nodup)
    (htid : (s.dict.map (fun r => r.termid)).Nodup) :
    ∀ t ∈ dterms, ∀ u ∈ dterms, t ≠ u → tidOf s dterms t ≠ tidOf s dterms u := by
  intro t ht u hu hne
  cases hft : lookupTermid s.dict t with
  | some kt =>
    rw [tidOf_of_some s dterms t kt hft]
    cases hfu : lookupTermid s.dict u with
    | some ku =>
      rw [tidOf_of_some s dterms u ku hfu]
      obtain ⟨rt, hrt, hrtt, hrtk⟩ := lookupTermid_mem _ _ _ hft
      obtain ⟨ru, hru, hruu, hruk⟩ := lookupTermid_mem _ _ _ hfu
      intro heq
      have hre : rt = ru := List.inj_on_of_nodup_map htid hrt hru (by rw [hrtk, hruk, heq])
      apply hne
      rw [← hrtt, ← hruu, hre]
    | none =>
      rw [tidOf_of_none s dterms u hfu]
      obtain ⟨rt, hrt, -, hrtk⟩ := lookupTermid_mem _ _ _ hft
      have h1 := le_maxTermid s rt hrt
      intro heq
      omega
  | none =>
    rw [tidOf_of_none s dterms t hft]
    cases hfu : lookupTermid s.dict u with
    | some ku =>
      rw [tidOf_of_some s dterms u ku hfu]
      obtain ⟨ru, hru, -, hruk⟩ := lookupTermid_mem _ _ _ hfu
      have h1 := le_maxTermid s ru hru
      intro heq
      omega
    | none =>
      rw [tidOf_of_none s dterms u hfu]
      intro heq
      rcases lt_trichotomy t u with hlt | heqq | hlt
      · have := rank_lt dterms hnd t u ht hlt
        omega
      · exact hne heqq
      · have := rank_lt dterms hnd u t hu hlt
        omega

theorem insPostStep_fresh (s : IndexState) (dterms tokens : List String) (D : Int)
    (acc : List PostRow) (t : String) (ht : t ∈ dterms)
    (hacc : ∀ p ∈ acc, ¬ (p.termid = tidOf s dterms t ∧ p.docid = D)) :
    insPostStep (insDict s dterms) tokens D acc t =
      acc ++ [{ termid := tidOf s dterms t, docid := D, tf := (tokens.count t : Int) }] := by
  unfold insPostStep
  rw [lookupTermid_insDict s dterms t ht]
  have hany : (acc.any (fun p => decide (p.termid = tidOf s dterms t ∧ p.docid = D))) = false := by
    rw [List.any_eq_false]
    intro p hp
    simp only [decide_eq_true_iff]
    exact hacc p hp
  show (if acc.any (fun p => decide (p.termid = tidOf s dterms t ∧ p.docid = D))
      then acc.map (fun p => if p.termid = tidOf s dterms t ∧ p.docid = D
        then { p with tf := (tokens.count t : Int) } else p)
      else acc ++ [{ termid := tidOf s dterms t, docid := D, tf := (tokens.count t : Int) }]) =
    acc ++ [{ termid := tidOf s dterms t, docid := D, tf := (tokens.count t : Int) }]
  rw [hany]
  simp

theorem insPost_eq (s : IndexState) (tokens dterms : List String) (D : Int)
    (hnd : dterms.Nodup)
    (htid : (s.dict.map (fun r => r.termid)).Nodup)
    (hfresh : ∀ p ∈ s.postings, p.docid ≠ D) :
    insPost s (insDict s dterms) tokens dterms D =
      s.postings ++ dterms.map (fun t =>
        { termid := tidOf s dterms t, docid := D, tf := (tokens.count t : Int) }) := by
  unfold insPost
  suffices h : ∀ ts done : List String, done ++ ts = dterms →
      ts.foldl (insPostStep (insDict s dterms) tokens D)
        (s.postings ++ done.map (fun t =>
          ({ termid := tidOf s dterms t, docid := D, tf := (tokens.count t : Int) } : PostRow))) =
      s.postings ++ (done ++ ts).map (fun t =>
        ({ termid := tidOf s dterms t, docid := D, tf := (tokens.count t : Int) } : PostRow)) by
    have h2 := h dterms [] rfl
    simpa using h2
  intro ts
  induction ts with
  | nil =>
    intro done hdone
    simp
  | cons t ts ih =>
    intro done hdone
    have htmem : t ∈ dterms := by
      rw [← hdone]
      exact List.mem_append_right done (List.mem_cons_self t ts)
    have hacc : ∀ p ∈ s.postings ++ done.map (fun t =>
        ({ termid := tidOf s dterms t, docid := D, tf := (tokens.count t : Int) } : PostRow)),
        ¬ (p.termid = tidOf s dterms t ∧ p.docid = D) := by
      intro p hp
      rw [List.mem_append] at hp
      rcases hp with hp | hp
      · rintro ⟨-, hD⟩
        exact hfresh p hp hD
      · rw [List.mem_map] at hp
        obtain ⟨u, hu, rfl⟩ := hp
        rintro ⟨hteq, -⟩
        have hudm : u ∈ dterms := by
          rw [← hdone]
          exact List.mem_append_left _ hu
        have hune : u ≠ t := by
          rintro rfl
          have hnd2 : (done ++ u :: ts).Nodup := by rw [hdone]; exact hnd
          rw [List.nodup_append] at hnd2
          exact hnd2.2.2 hu (List.mem_cons_self u ts)
        exact tidOf_inj s dterms hnd htid u hudm t htmem hune hteq
    rw [List.foldl_cons, insPostStep_fresh s dterms tokens D _ t htmem hacc]
    rw [show s.postings ++ done.map (fun t =>
        ({ termid := tidOf s dterms t, docid := D, tf := (tokens.count t : Int) } : PostRow)) ++
        [({ termid := tidOf s dterms t, docid := D, tf := (tokens.count t : Int) } : PostRow)] =
      s.postings ++ (done ++ [t]).map (fun t =>
        ({ termid := tidOf s dterms t, docid := D, tf := (tokens.count t : Int) } : PostRow)) from by
      rw [List.map_append, ← List.append_assoc]
      rfl]
    rw [ih (done ++ [t]) (by rw [List.append_assoc]; simpa using hdone)]
    rw [← List.append_cons]

theorem dfInv_insert (s : IndexState) (doc : String) (docid? : Option Int)
    (hterm : (s.dict.map (fun r => r.term)).Nodup)
    (htid : (s.dict.map (fun r => r.termid)).Nodup)
    (href : ∀ p ∈ s.postings, ∃ r ∈ s.dict, r.termid = p.termid)
    (hfresh : ∀ p ∈ s.postings, p.docid ≠ usedDocid s docid?)
    (hinv : dfInv s) :
    dfInv (insert s doc docid?).1 := by
  cases htok : (tokenize doc).isEmpty with
  | true =>
    have hins : insert s doc docid? = (s, none) := by
      simp [insert, htok]
    rw [hins]
    exact hinv
  | false =>
  have hdict : (insert s doc docid?).1.dict = insDict s ((tokenize doc).dedup) := by
    simp [insert, htok]
  have hpost : (insert s doc docid?).1.postings =
      insPost s (insDict s ((tokenize doc).dedup)) (tokenize doc) ((tokenize doc).dedup)
        (usedDocid s docid?) := by
    simp [insert, htok]
  have hnd : ((tokenize doc).dedup).Nodup := List.nodup_dedup _
  have hpost2 := insPost_eq s (tokenize doc) ((tokenize doc).dedup) (usedDocid s docid?)
    hnd htid hfresh
  have hPD : ∀ t0 : Int, postDocs (insert s doc docid?).1 t0 =
      postDocs s t0 ∪
        (((((tokenize doc).dedup).map (fun t =>
          ({ termid := tidOf s ((tokenize doc).dedup) t, docid := usedDocid s docid?,
             tf := ((tokenize doc).count t : Int) } : PostRow))).filter
          (fun p => decide (p.termid = t0))).map (fun p => p.docid)).toFinset := by
    intro t0
    unfold postDocs
    rw [hpost, hpost2, List.filter_append, List.map_append, List.toFinset_append]
  have hB_empty : ∀ t0 : Int, (∀ t ∈ (tokenize doc).dedup, tidOf s ((tokenize doc).dedup) t ≠ t0) →
      (((((tokenize doc).dedup).map (fun t =>
        ({ termid := tidOf s ((tokenize doc).dedup) t, docid := usedDocid s docid?,
           tf := ((tokenize doc).count t : Int) } : PostRow))).filter
        (fun p => decide (p.termid = t0))).map (fun p => p.docid)).toFinset = ∅ := by
    intro t0 hno
    rw [show (((tokenize doc).dedup).map (fun t =>
        ({ termid := tidOf s ((tokenize doc).dedup) t, docid := usedDocid s docid?,
           tf := ((tokenize doc).count t : Int) } : PostRow))).filter
        (fun p => decide (p.termid = t0)) = [] from by
      rw [List.filter_eq_nil_iff]
      intro p hp
      rw [List.mem_map] at hp
      obtain ⟨t, htm, rfl⟩ := hp
      simp only [decide_eq_true_iff]
      exact hno t htm]
    rfl
  have hB_single : ∀ t ∈ (tokenize doc).dedup,
      (((((tokenize doc).dedup).map (fun t =>
        ({ termid := tidOf s ((tokenize doc).dedup) t, docid := usedDocid s docid?,
           tf := ((tokenize doc).count t : Int) } : PostRow))).filter
        (fun p => decide (p.termid = tidOf s ((tokenize doc).dedup) t))).map
        (fun p => p.docid)).toFinset = {usedDocid s docid?} := by
    intro t htm
    ext x
    rw [List.mem_toFinset, Finset.mem_singleton, List.mem_map]
    constructor
    · rintro ⟨p, hp, rfl⟩
      rw [List.mem_filter] at hp
      obtain ⟨hp1, -⟩ := hp
      rw [List.mem_map] at hp1
      obtain ⟨u, hum, rfl⟩ := hp1
      rfl
    · rintro rfl
      refine ⟨{ termid := tidOf s ((tokenize doc).dedup) t, docid := usedDocid s docid?,
                tf := ((tokenize doc).count t : Int) },
        List.mem_filter.mpr ⟨?_, by simp⟩, rfl⟩
      exact List.mem_map_of_mem _ htm
  intro r' hr'
  rw [hdict] at hr'
  rw [docFreq_eq_card]
  unfold insDict at hr'
  rw [List.mem_append] at hr'
  rcases hr' with hr' | hr'
  · rw [List.mem_map] at hr'
    obtain ⟨r, hr, rfl⟩ := hr'
    by_cases hmem : r.term ∈ (tokenize doc).dedup
    · rw [if_pos hmem]
      show r.df + 1 = ((postDocs (insert s doc docid?).1 r.termid).card : Int)
      have htid_r : tidOf s ((tokenize doc).dedup) r.term = r.termid :=
        tidOf_of_some s _ r.term r.termid (lookupTermid_self s.dict hterm r hr)
      have hBs := hB_single r.term hmem
      rw [htid_r] at hBs
      rw [hPD r.termid, hBs]
      have hDnotin : usedDocid s docid? ∉ postDocs s r.termid := by
        rw [mem_postDocs_iff]
        rintro ⟨p, hp, -, hpd⟩
        exact hfresh p hp hpd
      rw [Finset.union_comm, ← Finset.insert_eq, Finset.card_insert_of_not_mem hDnotin]
      have hrdf := hinv r hr
      rw [docFreq_eq_card] at hrdf
      omega
    · rw [if_neg hmem]
      show r.df = ((postDocs (insert s doc docid?).1 r.termid).card : Int)
      have hno : ∀ t ∈ (tokenize doc).dedup, tidOf s ((tokenize doc).dedup) t ≠ r.termid := by
        intro t htm heq
        cases hft : lookupTermid s.dict t with
        | some k =>
          rw [tidOf_of_some s _ t k hft] at heq
          obtain ⟨rt, hrt, hrtt, hrtk⟩ := lookupTermid_mem _ _ _ hft
          have hre : rt = r := List.inj_on_of_nodup_map htid hrt hr (by rw [hrtk, heq])
          apply hmem
          rw [show r.term = t from by rw [← hrtt, hre]]
          exact htm
        | none =>
          rw [tidOf_of_none s _ t hft] at heq
          have := le_maxTermid s r hr
          omega
      rw [hPD r.termid, hB_empty r.termid hno, Finset.union_empty]
      have hrdf := hinv r hr
      rw [docFreq_eq_card] at hrdf
      exact hrdf
  · rw [List.mem_map] at hr'
    obtain ⟨t, htf, rfl⟩ := hr'
    rw [List.mem_filter, decide_eq_true_iff] at htf
    obtain ⟨htm, hnone⟩ := htf
    have htid_t : tidOf s ((tokenize doc).dedup) t =
        maxTermid s + 1 + ((((tokenize doc).dedup).filter
          (fun u => decide (u < t))).length : Int) :=
      tidOf_of_none s _ t hnone
    show (1 : Int) = ((postDocs (insert s doc docid?).1
      (maxTermid s + 1 + ((((tokenize doc).dedup).filter
        (fun u => decide (u < t))).length : Int))).card : Int)
    have hold : postDocs s (maxTermid s + 1 + ((((tokenize doc).dedup).filter
        (fun u => decide (u < t))).length : Int)) = ∅ := by
      apply Finset.eq_empty_of_forall_not_mem
      intro x hx
      rw [mem_postDocs_iff] at hx
      obtain ⟨p, hp, hptid, -⟩ := hx
      obtain ⟨rr, hrr, hrrt⟩ := href p hp
      have := le_maxTermid s rr hrr
      omega
    have hBs := hB_single t htm
    rw [htid_t] at hBs
    rw [hPD _, hold, hBs, Finset.empty_union]
    simp

/-- **C1 (amended).** The dictionary invariant — every term's `df` equals
the number of distinct docids having a posting row for it — is preserved by
`delete` and by `delete_N` (any selected batch) from any state satisfying
it, with no further hypothesis; and by `insert` provided additionally the
tables' key and referential integrity holds (duplicate-free dict terms and
termids, postings referencing dictionary termids) and the docid `insert`
uses (the given one, or `COALESCE(MAX(docid),0)+1` when omitted) has no
posting rows. -/
theorem df_invariant_preserved (s : IndexState) (d : Int) (sel : List Int)
    (doc : String) (docid? : Option Int)
    (hinv : dfInv s) :
    dfInv (delete s d) ∧ dfInv (delete_N s sel) ∧
      ((s.dict.map (fun r => r.term)).Nodup →
        (s.dict.map (fun r => r.termid)).Nodup →
        (∀ p ∈ s.postings, ∃ r ∈ s.dict, r.termid = p.termid) →
        (∀ p ∈ s.postings, p.docid ≠ usedDocid s docid?) →
        dfInv (insert s doc docid?).1) :=
  ⟨dfInv_delete s hinv d, dfInv_delete_N s hinv sel,
    fun hterm htid href hfresh => dfInv_insert s doc docid? hterm htid href hfresh hinv⟩

/-- Witness for C1 (amended) on the one-document index. -/
theorem df_invariant_preserved_witness :
    dfInv exA ∧
    (dfInv (delete exA 1) ∧ dfInv (delete_N exA [1]) ∧ dfInv (insert exA "pear" none).1) :=
  ⟨by decide,
    (df_invariant_preserved exA 1 [1] "pear" none (by decide)).1,
    (df_invariant_preserved exA 1 [1] "pear" none (by decide)).2.1,
    (df_invariant_preserved exA 1 [1] "pear" none (by decide)).2.2
      (by decide) (by decide) (by decide) (by decide)⟩

/-! ## C9 (amended) — the two tokenization paths agree on ASCII content -/

theorem toNat_ofNat_upper_shift (n : Nat) (h1 : 65 ≤ n) (h2 : n ≤ 90) :
    (Char.ofNat (n + 32)).toNat = n + 32 := by
  interval_cases n <;> decide

theorem duckLower_eq_ascii (c : Char) (hc : c.toNat < 128) :
    duckLowerChar c = asciiLowerChar c := by
  unfold duckLowerChar asciiLowerChar
  by_cases hup : isAsciiUpper c = true
  · rw [if_pos hup, if_pos hup]
  · rw [if_neg hup, if_neg hup, if_neg (by omega : ¬ c.toNat = 8490),
      if_neg (by omega : ¬ c.toNat = 304)]

theorem duckLower_alpha_iff (c : Char) (hc : c.toNat < 128) :
    isAsciiLower (duckLowerChar c) = isAsciiAlpha c := by
  rw [duckLower_eq_ascii c hc]
  unfold asciiLowerChar isAsciiAlpha
  by_cases hup : isAsciiUpper c = true
  · rw [if_pos hup, hup, Bool.true_or]
    have hn : 65 ≤ c.toNat ∧ c.toNat ≤ 90 := by
      unfold isAsciiUpper at hup
      simpa using hup
    unfold isAsciiLower
    rw [toNat_ofNat_upper_shift c.toNat hn.1 hn.2]
    have h97 : 97 ≤ c.toNat + 32 := by omega
    have h122 : c.toNat + 32 ≤ 122 := by omega
    simp [h97, h122]
  · rw [if_neg hup]
    rw [show isAsciiUpper c = false from by revert hup; cases isAsciiUpper c <;> simp]
    rw [Bool.false_or]

theorem runsAux_nil (p : Char → Bool) (acc : List Char) :
    runsAux p [] acc = if acc.isEmpty then [] else [acc.reverse] := rfl

theorem runsAux_cons (p : Char → Bool) (c : Char) (cs acc : List Char) :
    runsAux p (c :: cs) acc =
      if p c then runsAux p cs (c :: acc)
      else if acc.isEmpty then runsAux p cs [] else acc.reverse :: runsAux p cs [] := rfl

theorem runsAux_ascii (cs : List Char) (acc : List Char)
    (hcs : ∀ c ∈ cs, c.toNat < 128) :
    runsAux isAsciiLower (cs.map duckLowerChar) (acc.map asciiLowerChar) =
      (runsAux isAsciiAlpha cs acc).map (fun r => r.map asciiLowerChar) := by
  induction cs generalizing acc with
  | nil =>
    rw [List.map_nil, runsAux_nil, runsAux_nil]
    cases acc with
    | nil => rfl
    | cons a acc =>
      rw [show ((a :: acc).map asciiLowerChar).isEmpty = false from rfl,
        show (a :: acc).isEmpty = false from rfl]
      simp [List.map_reverse]
  | cons c cs ih =>
    have hc : c.toNat < 128 := hcs c (List.mem_cons_self c cs)
    have hcs' : ∀ x ∈ cs, x.toNat < 128 := fun x hx => hcs x (List.mem_cons_of_mem c hx)
    rw [List.map_cons, runsAux_cons, runsAux_cons, duckLower_alpha_iff c hc]
    by_cases hα : isAsciiAlpha c = true
    · rw [if_pos hα, if_pos hα, duckLower_eq_ascii c hc, ← List.map_cons]
      exact ih (c :: acc) hcs'
    · rw [if_neg hα, if_neg hα]
      have hie : (acc.map asciiLowerChar).isEmpty = acc.isEmpty := by
        cases acc <;> rfl
      rw [hie]
      by_cases hacc : acc.isEmpty = true
      · rw [if_pos hacc, if_pos hacc]
        simpa using ih [] hcs'
      · rw [if_neg hacc, if_neg hacc, List.map_cons]
        congr 1
        · rw [← List.map_reverse]
        · simpa using ih [] hcs'

/-- **C9 (amended).** On content made of ASCII characters only, the
Builder's SQL tokenization (`[a-z]+` runs of the lowercased content) and
the shared `tokenize` (`[A-Za-z]+` runs, each lowercased) produce the same
token sequence. -/
theorem tokenization_paths_agree_ascii (content : String)
    (h : ∀ c ∈ content.data, c.toNat < 128) :
    sqlTokenize content = tokenize content := by
  unfold sqlTokenize tokenize
  have h2 : runsAux isAsciiLower (content.data.map duckLowerChar) [] =
      (runsAux isAsciiAlpha content.data []).map (fun r => r.map asciiLowerChar) := by
    simpa using runsAux_ascii content.data [] h
  rw [h2, List.map_map]
  rfl

/-- Witness for C9 (amended) on a representative ASCII document. -/
theorem tokenization_paths_agree_ascii_witness :
    (∀ c ∈ ("AI-driven systems (2025)!" : String).data, c.toNat < 128) ∧
    sqlTokenize "AI-driven systems (2025)!" = tokenize "AI-driven systems (2025)!" :=
  ⟨by decide, tokenization_paths_agree_ascii "AI-driven systems (2025)!" (by decide)⟩

/-! ## C3 — duplicate query terms poison the conjunctive candidate test -/

theorem joinRowsConj_nil {α : Type} [LinearOrderedField α] (ths : List (THRow α))
    (idf : List (Int × α)) : joinRowsConj ths ([] : List Int) idf = [] := by
  unfold joinRowsConj
  rw [show ths.filter (fun th => decide (th.docid ∈ ([] : List Int))) = [] from by
    rw [List.filter_eq_nil_iff]
    intro a ha
    simp]
  rfl

theorem rankTopN_nil {α : Type} [LinearOrderedField α] (n : Nat) :
    rankTopN ([] : List (Int × α)) n = [] := by
  unfold rankTopN
  rw [List.mergeSort_nil, List.take_nil]

theorem rankTopN_length {α : Type} [LinearOrderedField α] (l : List (Int × α)) (n : Nat) :
    (rankTopN l n).length = min n l.length := by
  unfold rankTopN
  rw [List.length_take, List.length_mergeSort]

/-- **C3 (code bug).** `tokenize_query` does **not** collapse duplicate
query tokens, and `conjunctive_bm25` compares the per-document count of
distinct matched termids against `COUNT(*)` of the (duplicate-carrying)
`query_terms` table: over the one-document index `exA` (document `1` =
`"apple"`), the query `"apple apple"` resolves to `[1, 1]` and returns no
results, while `"apple"` returns the document — contradicting both the
claim and the source's own contract of ranking the documents containing
all query terms. -/
theorem conjunctive_duplicate_term_bug :
    tokenize_query exA "apple apple" = [1, 1] ∧
    conjunctive_bm25 Real.log exA "apple apple" 10 = [] ∧
    conjunctive_bm25 Real.log exA "apple" 10 ≠ [] := by
  refine ⟨by decide, ?_, ?_⟩
  · have htids : tokenize_query exA "apple apple" = [1, 1] := by decide
    simp only [conjunctive_bm25, htids]
    rw [show ([1, 1] : List Int).isEmpty = false from rfl]
    simp only [Bool.false_eq_true, if_false]
    rw [show conjCandidates (termHits exA [1, 1] : List (THRow ℝ))
        ([1, 1] : List Int).length = [] from rfl]
    rw [joinRowsConj_nil]
    rw [show groupScores ([] : List (THRow ℝ × ℝ)) (avgdl exA) = [] from rfl]
    rw [rankTopN_nil]
  · have htids : tokenize_query exA "apple" = [1] := by decide
    have hlen : (conjunctive_bm25 Real.log exA "apple" 10).length = 1 := by
      simp only [conjunctive_bm25, htids]
      rw [show ([1] : List Int).isEmpty = false from rfl]
      simp only [Bool.false_eq_true, if_false]
      rw [rankTopN_length]
      rfl
    intro hnil
    rw [hnil] at hlen
    simp at hlen

/-! ## C4 — the BM25 score and top-N contract of both query modes -/

/-- `df(t)` as the spec formula reads it: the `df` of the dictionary row of
termid `t` (0 when absent). -/
def dfOf (s : IndexState) (t : Int) : Int :=
  match s.dict.find? (fun r => decide (r.termid = t)) with
  | some r => r.df
  | none => 0

/-- `length(D)`: the `len` of the catalog row of docid `d` (0 when absent). -/
def lenOf (s : IndexState) (d : Int) : Int :=
  match s.docs.find? (fun r => decide (r.docid = d)) with
  | some r => r.len
  | none => 0

/-- `tf(t,D)`: the `tf` of the posting row keyed `(t, d)` (0 when absent). -/
def tfOf (s : IndexState) (t d : Int) : Int :=
  match s.postings.find? (fun p => decide (p.termid = t ∧ p.docid = d)) with
  | some p => p.tf
  | none => 0

/-- The BM25 score of document `d` exactly as the specification formula
states it: the sum over the resolved query-term **set** (distinct termids)
of `ln((N - df + 0.5)/(df + 0.5)) * ((k1+1)·tf)/(tf + k1·(1 - b +
b·(len/avgdl)))`, with `N` the current document count and `avgdl` the
current mean document length. -/
def bm25Term {α : Type} [LinearOrderedField α] (lg : α → α) (s : IndexState)
    (d t : Int) : α :=
  lg ((((corpusN s : Nat) : α) - ((dfOf s t : Int) : α) + 1 / 2) /
      (((dfOf s t : Int) : α) + 1 / 2)) *
    tfNorm ((tfOf s t d : Int) : α) ((lenOf s d : Int) : α) (avgdl s)

def bm25ScoreSpec {α : Type} [LinearOrderedField α] (lg : α → α) (s : IndexState)
    (tids : List Int) (d : Int) : α :=
  (tids.dedup.map (bm25Term lg s d)).sum

theorem filterFlatMap {β γ : Type} (l : List β) (g : β → List γ) (p : γ → Bool) :
    (l.flatMap g).filter p = l.flatMap (fun b => (g b).filter p) := by
  induction l with
  | nil => rfl
  | cons a l ih => rw [List.flatMap_cons, List.flatMap_cons, List.filter_append, ih]

theorem sumFlatMap {β : Type} {α : Type} [AddCommMonoid α] (l : List β) (g : β → List α) :
    (l.flatMap g).sum = (l.map (fun b => (g b).sum)).sum := by
  induction l with
  | nil => rfl
  | cons a l ih => rw [List.flatMap_cons, List.sum_append, List.map_cons, List.sum_cons, ih]

theorem toFinset_dedup' {β : Type} [DecidableEq β] (l : List β) :
    l.dedup.toFinset = l.toFinset := by
  ext x
  rw [List.mem_toFinset, List.mem_toFinset, List.mem_dedup]

theorem find?_key {β γ : Type} [DecidableEq γ] (l : List β) (f : β → γ)
    (hnd : (l.map f).Nodup) (r0 : β) (hr : r0 ∈ l) :
    l.find? (fun x => decide (f x = f r0)) = some r0 := by
  cases hf : l.find? (fun x => decide (f x = f r0)) with
  | none =>
    rw [List.find?_eq_none] at hf
    exact absurd (by simp) (hf r0 hr)
  | some x =>
    have hx := List.find?_some hf
    rw [decide_eq_true_iff] at hx
    have hm := List.mem_of_find?_eq_some hf
    rw [List.inj_on_of_nodup_map hnd hm hr hx]

theorem filter_key_singleton {β γ : Type} [DecidableEq γ] (l : List β) (f : β → γ)
    (hnd : (l.map f).Nodup) (r0 : β) (hr : r0 ∈ l) :
    l.filter (fun x => decide (f x = f r0)) = [r0] := by
  induction l with
  | nil => cases hr
  | cons a l ih =>
    rw [List.map_cons, List.nodup_cons] at hnd
    rcases List.mem_cons.mp hr with rfl | hr
    · rw [List.filter_cons_of_pos (by simp)]
      rw [show l.filter (fun x => decide (f x = f r0)) = [] from by
        rw [List.filter_eq_nil_iff]
        intro x hx
        simp only [decide_eq_true_iff]
        intro hfx
        exact hnd.1 (hfx ▸ List.mem_map_of_mem f hx)]
    · rw [List.filter_cons_of_neg (by
        simp only [decide_eq_true_iff]
        intro hfa
        exact hnd.1 (hfa ▸ List.mem_map_of_mem f hr))]
      exact ih hnd.2 hr

theorem flatMap_if_singleton {β γ : Type} (l : List β) (q : β → Prop) [DecidablePred q]
    (f : β → γ) :
    (l.flatMap (fun b => if q b then [f b] else [])) =
      (l.filter (fun b => decide (q b))).map f := by
  induction l with
  | nil => rfl
  | cons a l ih =>
    rw [List.flatMap_cons, ih, List.filter_cons]
    by_cases h : q a
    · rw [if_pos h, if_pos (show decide (q a) = true from decide_eq_true_iff.mpr h),
        List.map_cons, List.singleton_append]
    · rw [if_neg h, if_neg (show ¬ decide (q a) = true from by simpa using h),
        List.nil_append]

theorem flatMap_if_filter {β γ : Type} (l : List β) (q : β → Prop) [DecidablePred q]
    (g : β → List γ) :
    (l.flatMap (fun b => if q b then g b else [])) =
      (l.filter (fun b => decide (q b))).flatMap g := by
  induction l with
  | nil => rfl
  | cons a l ih =>
    rw [List.flatMap_cons, ih, List.filter_cons]
    by_cases h : q a
    · rw [if_pos h, if_pos (show decide (q a) = true from decide_eq_true_iff.mpr h),
        List.flatMap_cons]
    · rw [if_neg h, if_neg (show ¬ decide (q a) = true from by simpa using h),
        List.nil_append]

theorem mem_termHits (s : IndexState) (tids : List Int) (th : THRow α) :
    th ∈ (termHits s tids : List (THRow α)) ↔ ∃ p ∈ s.postings, p.termid ∈ tids ∧
      ∃ dr ∈ s.docs, dr.docid = p.docid ∧
        th = { docid := p.docid, termid := p.termid, tf := ((p.tf : Int) : α),
               len := ((dr.len : Int) : α) } := by
  unfold termHits
  rw [List.mem_flatMap]
  constructor
  · rintro ⟨p, hp, hth⟩
    by_cases hmem : p.termid ∈ tids
    · rw [if_pos hmem, List.mem_map] at hth
      obtain ⟨dr, hdr, rfl⟩ := hth
      rw [List.mem_filter, decide_eq_true_iff] at hdr
      exact ⟨p, hp, hmem, dr, hdr.1, hdr.2, rfl⟩
    · rw [if_neg hmem] at hth
      cases hth
  · rintro ⟨p, hp, hmem, dr, hdr, hdd, rfl⟩
    refine ⟨p, hp, ?_⟩
    rw [if_pos hmem, List.mem_map]
    exact ⟨dr, List.mem_filter.mpr ⟨hdr, decide_eq_true_iff.mpr hdd⟩, rfl⟩

theorem termHits_filter_docid (s : IndexState) (tids : List Int) (d : Int)
    (hdoc : (s.docs.map (fun r => r.docid)).Nodup)
    (dr0 : DocRow) (hdr0 : dr0 ∈ s.docs) (hdr0d : dr0.docid = d) :
    (termHits s tids : List (THRow α)).filter (fun th => decide (th.docid = d)) =
      (s.postings.filter (fun p => decide (p.termid ∈ tids ∧ p.docid = d))).map
        (fun p => { docid := p.docid, termid := p.termid, tf := ((p.tf : Int) : α), len := ((dr0.len : Int) : α) }) := by
  unfold termHits
  rw [filterFlatMap]
  have hinner : ∀ p : PostRow,
      ((if p.termid ∈ tids then
          (s.docs.filter (fun r => decide (r.docid = p.docid))).map
            (fun r => ({ docid := p.docid, termid := p.termid, tf := ((p.tf : Int) : α), len := ((r.len : Int) : α) } : THRow α))
        else []).filter (fun th => decide (th.docid = d))) =
      if p.termid ∈ tids ∧ p.docid = d then
        [({ docid := p.docid, termid := p.termid, tf := ((p.tf : Int) : α), len := ((dr0.len : Int) : α) } : THRow α)]
      else [] := by
    intro p
    by_cases hmem : p.termid ∈ tids
    · rw [if_pos hmem, List.filter_map]
      rw [show ((fun th : THRow α => decide (th.docid = d)) ∘
          (fun r : DocRow => ({ docid := p.docid, termid := p.termid, tf := ((p.tf : Int) : α), len := ((r.len : Int) : α) } : THRow α))) =
          fun r : DocRow => decide (p.docid = d) from rfl]
      by_cases hpd : p.docid = d
      · rw [if_pos ⟨hmem, hpd⟩]
        rw [show (fun r : DocRow => decide (p.docid = d)) = fun r : DocRow => true from by
          funext r
          simp [hpd]]
        rw [List.filter_true, hpd, ← hdr0d,
          filter_key_singleton s.docs (fun r => r.docid) hdoc dr0 hdr0]
        rfl
      · rw [if_neg (fun hc : p.termid ∈ tids ∧ p.docid = d => hpd hc.2)]
        rw [show (fun r : DocRow => decide (p.docid = d)) = fun r : DocRow => false from by
          funext r
          simp [hpd]]
        rw [List.filter_false, List.map_nil]
    · rw [if_neg hmem, if_neg (fun hc : p.termid ∈ tids ∧ p.docid = d => hmem hc.1)]
      rfl
  simp only [hinner]
  rw [flatMap_if_singleton]

theorem idfTable_filter (s : IndexState) (tids : List Int) (lg : α → α) (N : α) (t : Int)
    (htid : (s.dict.map (fun r => r.termid)).Nodup)
    (ht : t ∈ tids) (r0 : DictRow) (hr0 : r0 ∈ s.dict) (hr0t : r0.termid = t) :
    (idfTable s tids lg N).filter (fun ir => decide (ir.1 = t)) =
      [(t, lg ((N - ((dfOf s t : Int) : α) + 1 / 2) / (((dfOf s t : Int) : α) + 1 / 2)))] := by
  unfold idfTable
  rw [List.filter_map]
  rw [show ((fun ir : Int × α => decide (ir.1 = t)) ∘ (fun r : DictRow =>
      (r.termid, lg ((N - ((r.df : Int) : α) + 1 / 2) / (((r.df : Int) : α) + 1 / 2))))) =
      fun r : DictRow => decide (r.termid = t) from rfl]
  rw [List.filter_filter]
  rw [show (fun r : DictRow => decide (r.termid = t) && decide (r.termid ∈ tids)) =
      fun r : DictRow => decide (r.termid = t) from by
    funext r
    by_cases h : r.termid = t
    · simp [h, ht]
    · simp [h]]
  rw [show (fun r : DictRow => decide (r.termid = t)) =
      fun r : DictRow => decide (r.termid = r0.termid) from by rw [hr0t]]
  rw [filter_key_singleton s.dict (fun r => r.termid) htid r0 hr0]
  have hdf : dfOf s t = r0.df := by
    unfold dfOf
    rw [show (fun r : DictRow => decide (r.termid = t)) =
        fun r : DictRow => decide (r.termid = r0.termid) from by rw [hr0t]]
    rw [find?_key s.dict (fun r => r.termid) htid r0 hr0]
  rw [List.map_cons, List.map_nil, hr0t, hdf]

theorem joinRowsDisj_filter (ths : List (THRow α)) (idf : List (Int × α)) (d : Int) :
    (joinRowsDisj ths idf).filter (fun r => decide (r.1.docid = d)) =
      (ths.filter (fun th => decide (th.docid = d))).flatMap
        (fun th => (idf.filter (fun ir => decide (ir.1 = th.termid))).map
          (fun ir => (th, ir.2))) := by
  unfold joinRowsDisj
  rw [filterFlatMap]
  have hinner : ∀ th : THRow α,
      (((idf.filter (fun ir => decide (ir.1 = th.termid))).map (fun ir => (th, ir.2))).filter
        (fun r => decide (r.1.docid = d))) =
      if th.docid = d then
        (idf.filter (fun ir => decide (ir.1 = th.termid))).map (fun ir => (th, ir.2))
      else [] := by
    intro th
    rw [List.filter_map]
    rw [show ((fun r : THRow α × α => decide (r.1.docid = d)) ∘
        (fun ir : Int × α => (th, ir.2))) = fun ir : Int × α => decide (th.docid = d) from rfl]
    by_cases h : th.docid = d
    · rw [if_pos h]
      rw [show (fun ir : Int × α => decide (th.docid = d)) = fun ir : Int × α => true from by
        funext ir
        simp [h]]
      rw [List.filter_true]
    · rw [if_neg h]
      rw [show (fun ir : Int × α => decide (th.docid = d)) = fun ir : Int × α => false from by
        funext ir
        simp [h]]
      rw [List.filter_false, List.map_nil]
  simp only [hinner]
  rw [flatMap_if_filter]

theorem joinRowsConj_eq_disj (ths : List (THRow α)) (cands : List Int)
    (idf : List (Int × α)) :
    joinRowsConj ths cands idf =
      joinRowsDisj (ths.filter (fun th => decide (th.docid ∈ cands))) idf := rfl

theorem joinRowsConj_filter (ths : List (THRow α)) (cands : List Int)
    (idf : List (Int × α)) (d : Int) (hd : d ∈ cands) :
    (joinRowsConj ths cands idf).filter (fun r => decide (r.1.docid = d)) =
      (ths.filter (fun th => decide (th.docid = d))).flatMap
        (fun th => (idf.filter (fun ir => decide (ir.1 = th.termid))).map
          (fun ir => (th, ir.2))) := by
  rw [joinRowsConj_eq_disj, joinRowsDisj_filter, List.filter_filter]
  rw [show (fun th : THRow α => decide (th.docid = d) && decide (th.docid ∈ cands)) =
      fun th : THRow α => decide (th.docid = d) from by
    funext th
    by_cases h : th.docid = d
    · simp [h, hd]
    · simp [h]]

theorem mem_groupScores (rows : List (THRow α × α)) (adl : α) (pr : Int × α)
    (h : pr ∈ groupScores rows adl) :
    pr.1 ∈ rows.map (fun r => r.1.docid) ∧
      pr.2 = ((rows.filter (fun r => decide (r.1.docid = pr.1))).map
        (fun r => r.2 * tfNorm r.1.tf r.1.len adl)).sum := by
  unfold groupScores at h
  rw [List.mem_map] at h
  obtain ⟨d, hd, rfl⟩ := h
  rw [List.mem_dedup] at hd
  exact ⟨hd, rfl⟩

theorem nodup_filtered_termids (s : IndexState) (tids : List Int) (d : Int)
    (hkey : (s.postings.map (fun p => (p.termid, p.docid))).Nodup) :
    ((s.postings.filter (fun p => decide (p.termid ∈ tids ∧ p.docid = d))).map
      (fun p => p.termid)).Nodup := by
  apply List.Nodup.map_on
  · intro x hx y hy hxy
    rw [List.mem_filter, decide_eq_true_iff] at hx hy
    apply List.inj_on_of_nodup_map hkey hx.1 hy.1
    rw [Prod.mk.injEq]
    exact ⟨hxy, by rw [hx.2.2, hy.2.2]⟩
  · exact (List.Nodup.of_map _ hkey).filter _

theorem tokenize_query_mem_dict (s : IndexState) (q : String) :
    ∀ t ∈ tokenize_query s q, ∃ r ∈ s.dict, r.termid = t := by
  intro t ht
  unfold tokenize_query at ht
  rw [List.mem_filterMap] at ht
  obtain ⟨tok, -, htok⟩ := ht
  obtain ⟨r, hr, -, hrt⟩ := lookupTermid_mem s.dict tok t htok
  exact ⟨r, hr, hrt⟩

theorem rankTopN_sorted (l : List (Int × α)) (n : Nat) :
    (rankTopN l n).Pairwise (fun x y => y.2 ≤ x.2) := by
  unfold rankTopN
  apply List.Pairwise.sublist (List.take_sublist n _)
  have hs : List.Pairwise
      (fun a b : Int × α => (fun x y : Int × α => decide (y.2 ≤ x.2)) a b = true)
      (l.mergeSort (fun x y => decide (y.2 ≤ x.2))) := by
    apply List.sorted_mergeSort
    · intro a b c hab hbc
      rw [decide_eq_true_iff] at hab hbc ⊢
      exact le_trans hbc hab
    · intro a b
      rcases le_total b.2 a.2 with h | h <;> simp [h]
  exact hs.imp (fun h => decide_eq_true_iff.mp h)

theorem mem_rankTopN (l : List (Int × α)) (n : Nat) (pr : Int × α)
    (h : pr ∈ rankTopN l n) : pr ∈ l := by
  unfold rankTopN at h
  exact (List.mergeSort_perm l _).mem_iff.mp ((List.take_sublist n _).subset h)

theorem rankTopN_length_le (l : List (Int × α)) (n : Nat) : (rankTopN l n).length ≤ n := by
  rw [rankTopN_length]
  exact min_le_left _ _

theorem score_sum_eq (s : IndexState) (tids : List Int) (lg : α → α) (d : Int)
    (htid : (s.dict.map (fun r => r.termid)).Nodup)
    (hkey : (s.postings.map (fun p => (p.termid, p.docid))).Nodup)
    (hdoc : (s.docs.map (fun r => r.docid)).Nodup)
    (htd : ∀ t ∈ tids, ∃ r ∈ s.dict, r.termid = t)
    (dr0 : DocRow) (hdr0 : dr0 ∈ s.docs) (hdr0d : dr0.docid = d) :
    ((((termHits s tids : List (THRow α)).filter (fun th => decide (th.docid = d))).flatMap
      (fun th => ((idfTable s tids lg ((corpusN s : Nat) : α)).filter
        (fun ir => decide (ir.1 = th.termid))).map (fun ir => (th, ir.2)))).map
      (fun r => r.2 * tfNorm r.1.tf r.1.len (avgdl s))).sum = bm25ScoreSpec lg s tids d := by
  have hlen : lenOf s d = dr0.len := by
    unfold lenOf
    rw [show (fun r : DocRow => decide (r.docid = d)) =
        fun r : DocRow => decide (r.docid = dr0.docid) from by rw [hdr0d]]
    rw [find?_key s.docs (fun r => r.docid) hdoc dr0 hdr0]
  rw [termHits_filter_docid s tids d hdoc dr0 hdr0 hdr0d]
  rw [List.map_flatMap, sumFlatMap, List.map_map]
  have hpoint : ∀ p ∈ s.postings.filter (fun p => decide (p.termid ∈ tids ∧ p.docid = d)),
      ((((idfTable s tids lg ((corpusN s : Nat) : α)).filter
        (fun ir => decide (ir.1 = p.termid))).map
        (fun ir => (({ docid := p.docid, termid := p.termid, tf := ((p.tf : Int) : α), len := ((dr0.len : Int) : α) } : THRow α), ir.2))).map
        (fun r => r.2 * tfNorm r.1.tf r.1.len (avgdl s))).sum
      = bm25Term lg s d p.termid := by
    intro p hp
    rw [List.mem_filter, decide_eq_true_iff] at hp
    obtain ⟨hpp, hptid, hpd⟩ := hp
    obtain ⟨rd, hrd, hrdt⟩ := htd p.termid hptid
    rw [idfTable_filter s tids lg _ p.termid htid hptid rd hrd hrdt]
    rw [List.map_cons, List.map_nil, List.map_cons, List.map_nil, List.sum_cons,
      List.sum_nil, add_zero]
    unfold bm25Term
    have htf : tfOf s p.termid d = p.tf := by
      unfold tfOf
      rw [show (fun x : PostRow => decide (x.termid = p.termid ∧ x.docid = d)) =
          fun x : PostRow => decide ((x.termid, x.docid) = (p.termid, p.docid)) from by
        funext x
        rw [decide_eq_decide, Prod.mk.injEq, hpd]]
      rw [find?_key s.postings (fun x => (x.termid, x.docid)) hkey p hpp]
    rw [htf, hlen]
  refine Eq.trans (congrArg List.sum (List.map_congr_left hpoint)) ?_
  rw [show (fun p : PostRow => bm25Term lg s d p.termid) =
      (bm25Term lg s d) ∘ (fun p : PostRow => p.termid) from rfl]
  rw [← List.map_map]
  rw [← List.sum_toFinset _ (nodup_filtered_termids s tids d hkey)]
  have hsub : ((s.postings.filter (fun p => decide (p.termid ∈ tids ∧ p.docid = d))).map
      (fun p => p.termid)).toFinset ⊆ tids.toFinset := by
    intro t ht
    rw [List.mem_toFinset, List.mem_map] at ht
    obtain ⟨p, hp, rfl⟩ := ht
    rw [List.mem_filter, decide_eq_true_iff] at hp
    rw [List.mem_toFinset]
    exact hp.2.1
  have hzero : ∀ t ∈ tids.toFinset,
      t ∉ ((s.postings.filter (fun p => decide (p.termid ∈ tids ∧ p.docid = d))).map
        (fun p => p.termid)).toFinset → bm25Term lg s d t = 0 := by
    intro t htm hnot
    have htf0 : tfOf s t d = 0 := by
      unfold tfOf
      cases hf : s.postings.find? (fun x => decide (x.termid = t ∧ x.docid = d)) with
      | none => rfl
      | some p =>
        exfalso
        have hpx := List.find?_some hf
        rw [decide_eq_true_iff] at hpx
        apply hnot
        rw [List.mem_toFinset, List.mem_map]
        refine ⟨p, List.mem_filter.mpr ⟨List.mem_of_find?_eq_some hf,
          decide_eq_true_iff.mpr ⟨?_, hpx.2⟩⟩, hpx.1⟩
        rw [hpx.1]
        exact List.mem_toFinset.mp htm
    unfold bm25Term
    rw [htf0]
    unfold tfNorm
    rw [Int.cast_zero, mul_zero, zero_div, mul_zero]
  rw [Finset.sum_subset hsub hzero]
  unfold bm25ScoreSpec
  rw [← List.sum_toFinset _ (List.nodup_dedup tids), toFinset_dedup']

theorem tokenize_query_isEmpty_false (s : IndexState) (q : String)
    (hne : tokenize_query s q ≠ []) : (tokenize_query s q).isEmpty = false := by
  cases hh : tokenize_query s q with
  | nil => exact absurd hh hne
  | cons a l => rfl

theorem conjunctive_bm25_eq (lg : α → α) (s : IndexState) (q : String) (n : Nat)
    (hne : tokenize_query s q ≠ []) :
    conjunctive_bm25 lg s q n = rankTopN (groupScores
      (joinRowsConj (termHits s (tokenize_query s q))
        (conjCandidates (termHits s (tokenize_query s q) : List (THRow α))
          (tokenize_query s q).length)
        (idfTable s (tokenize_query s q) lg ((corpusN s : Nat) : α))) (avgdl s)) n := by
  simp only [conjunctive_bm25, tokenize_query_isEmpty_false s q hne, Bool.false_eq_true,
    if_false]

theorem disjunctive_bm25_eq (lg : α → α) (s : IndexState) (q : String) (n : Nat)
    (hne : tokenize_query s q ≠ []) :
    disjunctive_bm25 lg s q n = rankTopN (groupScores
      (joinRowsDisj (termHits s (tokenize_query s q))
        (idfTable s (tokenize_query s q) lg ((corpusN s : Nat) : α))) (avgdl s)) n := by
  simp only [disjunctive_bm25, tokenize_query_isEmpty_false s q hne, Bool.false_eq_true,
    if_false]

theorem disjunctive_score_eq (s : IndexState) (q : String) (n : Nat) (lg : α → α)
    (htid : (s.dict.map (fun r => r.termid)).Nodup)
    (hkey : (s.postings.map (fun p => (p.termid, p.docid))).Nodup)
    (hdoc : (s.docs.map (fun r => r.docid)).Nodup)
    (hne : tokenize_query s q ≠ []) :
    ∀ pr ∈ (disjunctive_bm25 lg s q n : List (Int × α)),
      pr.2 = bm25ScoreSpec lg s (tokenize_query s q) pr.1 := by
  intro pr hpr
  rw [disjunctive_bm25_eq lg s q n hne] at hpr
  have hmem := mem_rankTopN _ _ _ hpr
  obtain ⟨hdm, hsum⟩ := mem_groupScores _ _ _ hmem
  rw [List.mem_map] at hdm
  obtain ⟨row, hrow, hrowd⟩ := hdm
  have hth : row.1 ∈ (termHits s (tokenize_query s q) : List (THRow α)) := by
    unfold joinRowsDisj at hrow
    rw [List.mem_flatMap] at hrow
    obtain ⟨th, hthm, hr2⟩ := hrow
    rw [List.mem_map] at hr2
    obtain ⟨ir, -, rfl⟩ := hr2
    exact hthm
  rw [mem_termHits] at hth
  obtain ⟨p, hpp, -, dr, hdr, hdd, hthe⟩ := hth
  have hdrd : dr.docid = pr.1 := by
    rw [hdd, ← hrowd, hthe]
  rw [hsum, joinRowsDisj_filter]
  exact score_sum_eq s (tokenize_query s q) lg pr.1 htid hkey hdoc
    (tokenize_query_mem_dict s q) dr hdr hdrd

theorem conjunctive_score_eq (s : IndexState) (q : String) (n : Nat) (lg : α → α)
    (htid : (s.dict.map (fun r => r.termid)).Nodup)
    (hkey : (s.postings.map (fun p => (p.termid, p.docid))).Nodup)
    (hdoc : (s.docs.map (fun r => r.docid)).Nodup)
    (hne : tokenize_query s q ≠ []) :
    ∀ pr ∈ (conjunctive_bm25 lg s q n : List (Int × α)),
      pr.2 = bm25ScoreSpec lg s (tokenize_query s q) pr.1 := by
  intro pr hpr
  rw [conjunctive_bm25_eq lg s q n hne] at hpr
  have hmem := mem_rankTopN _ _ _ hpr
  obtain ⟨hdm, hsum⟩ := mem_groupScores _ _ _ hmem
  rw [List.mem_map] at hdm
  obtain ⟨row, hrow, hrowd⟩ := hdm
  rw [joinRowsConj_eq_disj] at hrow
  have hth0 : row.1 ∈ (termHits s (tokenize_query s q) : List (THRow α)).filter
      (fun th => decide (th.docid ∈
        conjCandidates (termHits s (tokenize_query s q) : List (THRow α))
          (tokenize_query s q).length)) := by
    unfold joinRowsDisj at hrow
    rw [List.mem_flatMap] at hrow
    obtain ⟨th, hthm, hr2⟩ := hrow
    rw [List.mem_map] at hr2
    obtain ⟨ir, -, rfl⟩ := hr2
    exact hthm
  rw [List.mem_filter, decide_eq_true_iff] at hth0
  obtain ⟨hth, hcand⟩ := hth0
  rw [hrowd] at hcand
  rw [mem_termHits] at hth
  obtain ⟨p, hpp, -, dr, hdr, hdd, hthe⟩ := hth
  have hdrd : dr.docid = pr.1 := by
    rw [hdd, ← hrowd, hthe]
  rw [hsum, joinRowsConj_filter _ _ _ _ hcand]
  exact score_sum_eq s (tokenize_query s q) lg pr.1 htid hkey hdoc
    (tokenize_query_mem_dict s q) dr hdr hdrd

/-- **C4.** For every well-keyed index state and every query whose resolved
termid list is non-empty, both `conjunctive_bm25` and `disjunctive_bm25`
return at most `topN` pairs in descending score order, and every returned
pair carries exactly the specification's BM25 score
`Σ_t ln((N - df + 0.5)/(df + 0.5)) · ((k1+1)·tf)/(tf + k1·(1 - b + b·(len/avgdl)))`
over the resolved query-term set, with `k1 = 1.2`, `b = 0.75`, and `N`,
`avgdl` recomputed from the current catalog. -/
theorem bm25_both_modes_score_and_topN (s : IndexState) (q : String) (n : Nat)
    (htid : (s.dict.map (fun r => r.termid)).Nodup)
    (hkey : (s.postings.map (fun p => (p.termid, p.docid))).Nodup)
    (hdoc : (s.docs.map (fun r => r.docid)).Nodup)
    (hne : tokenize_query s q ≠ []) :
    ((conjunctive_bm25 Real.log s q n).length ≤ n ∧
      (conjunctive_bm25 Real.log s q n).Pairwise (fun x y => y.2 ≤ x.2) ∧
      (∀ pr ∈ conjunctive_bm25 Real.log s q n,
        pr.2 = bm25ScoreSpec Real.log s (tokenize_query s q) pr.1)) ∧
    ((disjunctive_bm25 Real.log s q n).length ≤ n ∧
      (disjunctive_bm25 Real.log s q n).Pairwise (fun x y => y.2 ≤ x.2) ∧
      (∀ pr ∈ disjunctive_bm25 Real.log s q n,
        pr.2 = bm25ScoreSpec Real.log s (tokenize_query s q) pr.1)) := by
  refine ⟨⟨?_, ?_, ?_⟩, ⟨?_, ?_, ?_⟩⟩
  · rw [conjunctive_bm25_eq Real.log s q n hne]
    exact rankTopN_length_le _ _
  · rw [conjunctive_bm25_eq Real.log s q n hne]
    exact rankTopN_sorted _ _
  · exact conjunctive_score_eq s q n Real.log htid hkey hdoc hne
  · rw [disjunctive_bm25_eq Real.log s q n hne]
    exact rankTopN_length_le _ _
  · rw [disjunctive_bm25_eq Real.log s q n hne]
    exact rankTopN_sorted _ _
  · exact disjunctive_score_eq s q n Real.log htid hkey hdoc hne

/-- Witness for C4: the query `"apple"` over the one-document index. -/
theorem bm25_both_modes_score_and_topN_witness :
    ((exA.dict.map (fun r => r.termid)).Nodup ∧
      (exA.postings.map (fun p => (p.termid, p.docid))).Nodup ∧
      (exA.docs.map (fun r => r.docid)).Nodup ∧ tokenize_query exA "apple" ≠ []) ∧
    (((conjunctive_bm25 Real.log exA "apple" 10).length ≤ 10 ∧
      (conjunctive_bm25 Real.log exA "apple" 10).Pairwise (fun x y => y.2 ≤ x.2) ∧
      (∀ pr ∈ conjunctive_bm25 Real.log exA "apple" 10,
        pr.2 = bm25ScoreSpec Real.log exA (tokenize_query exA "apple") pr.1)) ∧
    ((disjunctive_bm25 Real.log exA "apple" 10).length ≤ 10 ∧
      (disjunctive_bm25 Real.log exA "apple" 10).Pairwise (fun x y => y.2 ≤ x.2) ∧
      (∀ pr ∈ disjunctive_bm25 Real.log exA "apple" 10,
        pr.2 = bm25ScoreSpec Real.log exA (tokenize_query exA "apple") pr.1))) :=
  ⟨⟨by decide, by decide, by decide, by decide⟩,
    bm25_both_modes_score_and_topN exA "apple" 10 (by decide) (by decide) (by decide)
      (by decide)⟩

/-! ## C8 — `build` followed by per-document `delete` empties the index -/

theorem delete_docs (s : IndexState) (d : Int) :
    (delete s d).docs = s.docs.filter (fun r => decide (¬ r.docid = d)) := rfl

theorem dfInvPos_delete (s : IndexState) (d : Int)
    (hinv : ∀ r ∈ s.dict, 0 < r.df ∧ r.df = (docFreq s r.termid : Int)) :
    ∀ r ∈ (delete s d).dict, 0 < r.df ∧ r.df = (docFreq (delete s d) r.termid : Int) := by
  intro r' hr'
  have h2 : dfInv (delete s d) := dfInv_delete s (fun r hr => (hinv r hr).2) d
  refine ⟨?_, h2 r' hr'⟩
  rw [delete_dict, List.mem_filter] at hr'
  obtain ⟨hm, hg⟩ := hr'
  rw [decide_eq_true_iff] at hg
  rw [List.mem_map] at hm
  obtain ⟨r, hr, rfl⟩ := hm
  by_cases htouch : r.termid ∈ touchedTermids s d
  · rw [if_pos htouch] at hg ⊢
    show 0 < (if r.df > 0 then r.df - 1 else 0)
    have h1 := (hinv r hr).1
    rw [if_pos h1]
    have hne0 : ¬ (if r.df > 0 then r.df - 1 else 0) = 0 := fun hc => hg ⟨hc, htouch⟩
    rw [if_pos h1] at hne0
    omega
  · rw [if_neg htouch]
    exact (hinv r hr).1

theorem foldl_delete_empty (L : List Int) (s : IndexState)
    (hinv : ∀ r ∈ s.dict, 0 < r.df ∧ r.df = (docFreq s r.termid : Int))
    (hpostL : ∀ p ∈ s.postings, p.docid ∈ L)
    (hdocsL : ∀ r ∈ s.docs, r.docid ∈ L) :
    (L.foldl delete s).dict = [] ∧ (L.foldl delete s).docs = [] ∧
      (L.foldl delete s).postings = [] := by
  induction L generalizing s with
  | nil =>
    have hpe : s.postings = [] := by
      cases hps : s.postings with
      | nil => rfl
      | cons p ps =>
        exact absurd (hpostL p (by rw [hps]; exact List.mem_cons_self p ps))
          (List.not_mem_nil _)
    have hde : s.docs = [] := by
      cases hds : s.docs with
      | nil => rfl
      | cons r rs =>
        exact absurd (hdocsL r (by rw [hds]; exact List.mem_cons_self r rs))
          (List.not_mem_nil _)
    have hdi : s.dict = [] := by
      cases hds : s.dict with
      | nil => rfl
      | cons r rs =>
        exfalso
        have h := hinv r (by rw [hds]; exact List.mem_cons_self r rs)
        rw [show docFreq s r.termid = 0 from by unfold docFreq; rw [hpe]; rfl] at h
        omega
    rw [List.foldl_nil]
    exact ⟨hdi, hde, hpe⟩
  | cons d L ih =>
    rw [List.foldl_cons]
    apply ih (delete s d) (dfInvPos_delete s d hinv)
    · intro p hp
      rw [delete_postings, List.mem_filter, decide_eq_true_iff] at hp
      rcases List.mem_cons.mp (hpostL p hp.1) with hc | hc
      · exact absurd hc hp.2
      · exact hc
    · intro r hr
      rw [delete_docs, List.mem_filter, decide_eq_true_iff] at hr
      rcases List.mem_cons.mp (hdocsL r hr.1) with hc | hc
      · exact absurd hc hr.2
      · exact hc

theorem buildRank_inj (terms : List String) (hnd : terms.Nodup) :
    ∀ t ∈ terms, ∀ u ∈ terms, t ≠ u → buildRank terms t ≠ buildRank terms u := by
  intro t ht u hu hne heq
  unfold buildRank at heq
  rcases lt_trichotomy t u with hlt | he | hlt
  · have := rank_lt terms hnd t u ht hlt
    omega
  · exact hne he
  · have := rank_lt terms hnd u t hu hlt
    omega

theorem dedup_filter_map_fst_length (l : List (Int × String)) (t : String) :
    (((l.dedup.filter (fun dt => decide (dt.2 = t))).map Prod.fst)).dedup.length =
      (((l.filter (fun dt => decide (dt.2 = t))).map Prod.fst)).dedup.length := by
  rw [← List.card_toFinset, ← List.card_toFinset]
  congr 1
  ext x
  rw [List.mem_toFinset, List.mem_toFinset, List.mem_map, List.mem_map]
  constructor
  · rintro ⟨dt, hdt, rfl⟩
    rw [List.mem_filter] at hdt
    exact ⟨dt, List.mem_filter.mpr ⟨List.mem_dedup.mp hdt.1, hdt.2⟩, rfl⟩
  · rintro ⟨dt, hdt, rfl⟩
    rw [List.mem_filter] at hdt
    exact ⟨dt, List.mem_filter.mpr ⟨List.mem_dedup.mpr hdt.1, hdt.2⟩, rfl⟩

theorem buildDict_inv2 (stream : List (Int × String)) (t : String)
    (ht : t ∈ buildTerms stream) :
    (0 : Int) < (((stream.filter (fun dt => decide (dt.2 = t))).map Prod.fst).dedup.length : Int) ∧
    ((((stream.filter (fun dt => decide (dt.2 = t))).map Prod.fst).dedup.length : Int)) =
      ((((buildPostings stream).filter (fun p =>
        decide (p.termid = buildRank (buildTerms stream) t))).map
        (fun p => p.docid)).dedup.length : Int) := by
  constructor
  · have hex : ∃ dt ∈ stream, dt.2 = t := by
      unfold buildTerms at ht
      have ht2 := List.mem_dedup.mp ht
      rw [List.mem_map] at ht2
      obtain ⟨dt, hdt, rfl⟩ := ht2
      exact ⟨dt, hdt, rfl⟩
    obtain ⟨dt, hdt, hdt2⟩ := hex
    have hmem : dt.1 ∈ ((stream.filter (fun dt => decide (dt.2 = t))).map Prod.fst).dedup := by
      rw [List.mem_dedup, List.mem_map]
      exact ⟨dt, List.mem_filter.mpr ⟨hdt, decide_eq_true_iff.mpr hdt2⟩, rfl⟩
    have hpos := List.length_pos_iff_exists_mem.mpr ⟨dt.1, hmem⟩
    exact_mod_cast hpos
  · unfold buildPostings
    rw [List.filter_map]
    rw [show ((fun p : PostRow => decide (p.termid = buildRank (buildTerms stream) t)) ∘ (fun dt : Int × String => ({ termid := buildRank (buildTerms stream) dt.2, docid := dt.1, tf := (stream.count dt : Int) } : PostRow))) = fun dt : Int × String => decide (buildRank (buildTerms stream) dt.2 = buildRank (buildTerms stream) t) from rfl]
    have hcongr : stream.dedup.filter (fun dt : Int × String =>
        decide (buildRank (buildTerms stream) dt.2 = buildRank (buildTerms stream) t)) =
        stream.dedup.filter (fun dt : Int × String => decide (dt.2 = t)) := by
      apply List.filter_congr
      intro dt hdt
      rw [decide_eq_decide]
      have hdt2 : dt.2 ∈ buildTerms stream := by
        unfold buildTerms
        rw [List.mem_dedup]
        exact List.mem_map_of_mem Prod.snd (List.mem_dedup.mp hdt)
      constructor
      · intro heq
        by_contra hne
        exact buildRank_inj (buildTerms stream) (List.nodup_dedup _) dt.2 hdt2 t ht hne heq
      · intro heq
        rw [heq]
    rw [hcongr, List.map_map]
    rw [show ((fun p : PostRow => p.docid) ∘ (fun dt : Int × String => ({ termid := buildRank (buildTerms stream) dt.2, docid := dt.1, tf := (stream.count dt : Int) } : PostRow))) = Prod.fst from rfl]
    rw [dedup_filter_map_fst_length]

theorem build_index_inv (corpus : List (Int × String)) :
    ∀ r ∈ (build_index corpus).dict, 0 < r.df ∧
      r.df = (docFreq (build_index corpus) r.termid : Int) := by
  intro r hr
  have hr2 : r ∈ buildDict (tokenStream corpus) := hr
  unfold buildDict at hr2
  rw [List.mem_map] at hr2
  obtain ⟨t, ht, rfl⟩ := hr2
  have h := buildDict_inv2 (tokenStream corpus) t ht
  exact ⟨h.1, h.2⟩

theorem build_postings_docids (corpus : List (Int × String)) :
    ∀ p ∈ (build_index corpus).postings, p.docid ∈ corpus.map Prod.fst := by
  intro p hp
  have hp2 : p ∈ buildPostings (tokenStream corpus) := hp
  unfold buildPostings at hp2
  rw [List.mem_map] at hp2
  obtain ⟨dt, hdt, rfl⟩ := hp2
  have hdt2 := List.mem_dedup.mp hdt
  unfold tokenStream at hdt2
  rw [List.mem_flatMap] at hdt2
  obtain ⟨dc, hdc, hdt3⟩ := hdt2
  rw [List.mem_map] at hdt3
  obtain ⟨t, -, rfl⟩ := hdt3
  rw [List.mem_map]
  exact ⟨dc, hdc, rfl⟩

theorem build_docs_docids (corpus : List (Int × String)) :
    ∀ r ∈ (build_index corpus).docs, r.docid ∈ corpus.map Prod.fst := by
  intro r hr
  have hr2 : r ∈ corpus.map (fun dc =>
      ({ docid := dc.1, len := ((sqlTokenize dc.2).length : Int) } : DocRow)) := hr
  rw [List.mem_map] at hr2
  obtain ⟨dc, hdc, rfl⟩ := hr2
  rw [List.mem_map]
  exact ⟨dc, hdc, rfl⟩

/-- **C8.** For every finite corpus, building the index and then calling
`delete` once per docid of the corpus leaves no Dictionary, Document or
Postings rows. -/
theorem build_then_delete_all_empty (corpus : List (Int × String)) :
    ((corpus.map Prod.fst).foldl delete (build_index corpus)).dict = [] ∧
    ((corpus.map Prod.fst).foldl delete (build_index corpus)).docs = [] ∧
    ((corpus.map Prod.fst).foldl delete (build_index corpus)).postings = [] :=
  foldl_delete_empty (corpus.map Prod.fst) (build_index corpus)
    (build_index_inv corpus) (build_postings_docids corpus) (build_docs_docids corpus)

end DIdx
